import Mathlib

set_option maxHeartbeats 1000000

/-!
Verification development for the `effect` library: a small algebra of
lifecycle effects (new / translated / mutated / dead / existing values,
identity-keyed sets of them, and a combination operator merging two
effects per shared identity).

`src/effect/effect.py` is embedded directly.  The modules
`effect/identity.py` (Identity, IdentifiedValueSet) and
`effect/state_transition.py` (the five tagged variants and their
combination table) are not part of the sources at hand, so they are
modelled from the specification; every such definition is marked
`Modelled from the spec`.  Values of type `V` carry an identity computed
by a function `ident : V → ι`; identity equality is equality of keys.
-/

variable {V ι J J' J'' : Type}

/-- Modelled from the spec: `effect/state_transition.py` is not under the
sources; §7 names a single error kind `InvalidStateTransition`, raised when
the §4.2 table has no defined result for a pair of tags. -/
inductive InvalidStateTransitionError : Type where
  | mk : InvalidStateTransitionError
deriving DecidableEq, Repr

/-- Modelled from the spec: `effect/state_transition.py` is not under the
sources; §3 describes five tagged variants wrapping a value (`NewValue`,
`TranslatedValue`, `MutatedValue`, `DeadValue`, `NoValue`), each carrying
the wrapped value in its `just` field. -/
inductive StateTransition (V : Type) : Type where
  | NewValue (just : V)
  | TranslatedValue (just : V)
  | MutatedValue (just : V)
  | DeadValue (just : V)
  | NoValue (just : V)
deriving DecidableEq, Repr, Fintype

/-- The wrapped value of a tagged value. -/
def StateTransition.just : StateTransition V → V
  | .NewValue v => v
  | .TranslatedValue v => v
  | .MutatedValue v => v
  | .DeadValue v => v
  | .NoValue v => v

/-- Whether the tag is the neutral `NoValue` tag. -/
def StateTransition.isNo : StateTransition V → Bool
  | .NoValue _ => true
  | _ => false

/-- Modelled from the spec: the §4.2 combination table for
`left & right` on two tags applied in sequence to the same identity.
Rows are the left tag, columns the right tag; `invalid` entries raise
`InvalidStateTransition`.  The `E & E` entry follows the table note
"values must then be equal": equal values yield the neutral tag, unequal
values have no defined result. -/
def StateTransition.combine [DecidableEq V] :
    StateTransition V → StateTransition V →
    Except InvalidStateTransitionError (StateTransition V)
  | .NewValue _, .NewValue b => .ok (.NewValue b)
  | .NewValue _, .TranslatedValue _ => .error .mk
  | .NewValue _, .MutatedValue b => .ok (.NewValue b)
  | .NewValue _, .DeadValue b => .ok (.NoValue b)
  | .NewValue a, .NoValue _ => .ok (.NewValue a)
  | .TranslatedValue _, .NewValue _ => .error .mk
  | .TranslatedValue _, .TranslatedValue b => .ok (.TranslatedValue b)
  | .TranslatedValue _, .MutatedValue b => .ok (.TranslatedValue b)
  | .TranslatedValue _, .DeadValue b => .ok (.NoValue b)
  | .TranslatedValue a, .NoValue _ => .ok (.TranslatedValue a)
  | .MutatedValue _, .NewValue _ => .error .mk
  | .MutatedValue _, .TranslatedValue _ => .error .mk
  | .MutatedValue _, .MutatedValue b => .ok (.MutatedValue b)
  | .MutatedValue _, .DeadValue b => .ok (.DeadValue b)
  | .MutatedValue a, .NoValue _ => .ok (.MutatedValue a)
  | .DeadValue _, .NewValue _ => .error .mk
  | .DeadValue _, .TranslatedValue _ => .error .mk
  | .DeadValue _, .MutatedValue _ => .error .mk
  | .DeadValue _, .DeadValue b => .ok (.DeadValue b)
  | .DeadValue a, .NoValue _ => .ok (.DeadValue a)
  | .NoValue _, .NewValue b => .ok (.NewValue b)
  | .NoValue _, .TranslatedValue b => .ok (.TranslatedValue b)
  | .NoValue _, .MutatedValue b => .ok (.MutatedValue b)
  | .NoValue _, .DeadValue b => .ok (.DeadValue b)
  | .NoValue a, .NoValue b =>
    if a = b then .ok (.NoValue b) else .error .mk

/-- Modelled from the spec: membership of an identity key in an
identity-keyed set (a list of values keyed by `ident`). -/
def IVSet.hasKey [DecidableEq ι] (ident : V → ι) (s : List V) (i : ι) : Bool :=
  s.any fun w => decide (ident w = i)

/-- Modelled from the spec: lookup by identity, returning the stored
value for the key, if any. -/
def IVSet.keyLookup [DecidableEq ι] (ident : V → ι) (s : List V) (i : ι) : Option V :=
  s.find? fun w => decide (ident w = i)

/-- Modelled from the spec: constructing an `IdentifiedValueSet` from a
sequence of values deduplicates by identity, the stored representative of
a duplicated identity being the latest inserted. -/
def IVSet.ofList [DecidableEq ι] (ident : V → ι) : List V → List V
  | [] => []
  | v :: rest =>
    if IVSet.hasKey ident rest (ident v) then IVSet.ofList ident rest
    else v :: IVSet.ofList ident rest

/-- Modelled from the spec: union keeps identities present in either
operand; on a shared identity the right operand's value wins. -/
def IVSet.union [DecidableEq ι] (ident : V → ι) (s t : List V) : List V :=
  (s.filter fun v => ! IVSet.hasKey ident t (ident v)) ++ t

/-- Modelled from the spec: intersection keeps identities present in both
operands, the value taken from the right operand. -/
def IVSet.inter [DecidableEq ι] (ident : V → ι) (s t : List V) : List V :=
  t.filter fun v => IVSet.hasKey ident s (ident v)

/-- Modelled from the spec: difference keeps the left operand's entries
whose identity is absent from the right operand. -/
def IVSet.diff [DecidableEq ι] (ident : V → ι) (s t : List V) : List V :=
  s.filter fun v => ! IVSet.hasKey ident t (ident v)

/-- Modelled from the spec: two identity-keyed sets are equal when they
store the same value at every identity (an unordered, map-like equality). -/
def IVSet.beq [DecidableEq ι] [DecidableEq V] (ident : V → ι) (s t : List V) : Bool :=
  (s.all fun v => IVSet.keyLookup ident t (ident v) == IVSet.keyLookup ident s (ident v)) &&
  (t.all fun v => IVSet.keyLookup ident s (ident v) == IVSet.keyLookup ident t (ident v))

/-- The set's keys are pairwise distinct (always true of a Python
`IdentifiedValueSet`, which is keyed by identity). -/
def IVSet.NodupKeys (ident : V → ι) (s : List V) : Prop :=
  (s.map ident).Nodup

/-- No identity occurs in both sets. -/
def IVSet.KeysDisjoint (ident : V → ι) (s t : List V) : Prop :=
  ∀ v ∈ s, ∀ w ∈ t, ident v ≠ ident w

/-- `Effect` from `src/effect/effect.py`: a primary `just` value plus four
identity-keyed buckets of secondary values.  All four buckets default to
the empty set, as in the Python dataclass. -/
structure Effect (V : Type) (J : Type) : Type where
  just : J
  new_values : List V := []
  translated_values : List V := []
  mutated_values : List V := []
  dead_values : List V := []
deriving DecidableEq, Repr

/-- Extract the wrapped value of a `NewValue`, if that is the tag. -/
def StateTransition.newJust : StateTransition V → Option V
  | .NewValue v => some v
  | _ => none

/-- Extract the wrapped value of a `TranslatedValue`, if that is the tag. -/
def StateTransition.translatedJust : StateTransition V → Option V
  | .TranslatedValue v => some v
  | _ => none

/-- Extract the wrapped value of a `MutatedValue`, if that is the tag. -/
def StateTransition.mutatedJust : StateTransition V → Option V
  | .MutatedValue v => some v
  | _ => none

/-- Extract the wrapped value of a `DeadValue`, if that is the tag. -/
def StateTransition.deadJust : StateTransition V → Option V
  | .DeadValue v => some v
  | _ => none

/-- `Effect.of_values_with_state`: classify a sequence of tagged values
into the four buckets (each bucket an `IdentifiedValueSet` built from the
wrapped values of the inputs carrying the matching tag); `NoValue` inputs
match no bucket. -/
def Effect.of_values_with_state [DecidableEq ι] (ident : V → ι) (just : J)
    (values : List (StateTransition V)) : Effect V J where
  just := just
  new_values := IVSet.ofList ident (values.filterMap StateTransition.newJust)
  translated_values := IVSet.ofList ident (values.filterMap StateTransition.translatedJust)
  mutated_values := IVSet.ofList ident (values.filterMap StateTransition.mutatedJust)
  dead_values := IVSet.ofList ident (values.filterMap StateTransition.deadJust)

/-- `Effect.__iter__`: iterating an effect yields the union of its four
buckets, `new_values | translated_values | mutated_values | dead_values`
(the Python `|` associates to the left). -/
def Effect.toList [DecidableEq ι] (ident : V → ι) (e : Effect V J) : List V :=
  IVSet.union ident
    (IVSet.union ident
      (IVSet.union ident e.new_values e.translated_values)
      e.mutated_values)
    e.dead_values

/-- `Effect.value_with_state_by_value`: check the four buckets in order
for the exact value, wrapping it in the matching tag, and fall back to
`NoValue`. -/
def Effect.value_with_state_by_value [DecidableEq V] (e : Effect V J) (v : V) :
    StateTransition V :=
  if v ∈ e.new_values then .NewValue v
  else if v ∈ e.translated_values then .TranslatedValue v
  else if v ∈ e.mutated_values then .MutatedValue v
  else if v ∈ e.dead_values then .DeadValue v
  else .NoValue v

/-- The bucket search shared by `Effect.value_with_state_by_identity`:
check the four buckets in order for the identity key and return the
stored value wrapped in the matching tag; `none` when the identity is in
no bucket. -/
def Effect.lookupState [DecidableEq ι] (ident : V → ι) (e : Effect V J) (i : ι) :
    Option (StateTransition V) :=
  match IVSet.keyLookup ident e.new_values i with
  | some w => some (.NewValue w)
  | none =>
    match IVSet.keyLookup ident e.translated_values i with
    | some w => some (.TranslatedValue w)
    | none =>
      match IVSet.keyLookup ident e.mutated_values i with
      | some w => some (.MutatedValue w)
      | none =>
        match IVSet.keyLookup ident e.dead_values i with
        | some w => some (.DeadValue w)
        | none => none

/-- `Effect.value_with_state_by_identity`: look the identity up in the
four buckets in order, returning the stored value under the matching tag,
and fall back to `NoValue` around the probe value.  The probe `v` plays
the role of the Python `Identity` argument, which carries the value it
was derived from. -/
def Effect.value_with_state_by_identity [DecidableEq ι] (ident : V → ι)
    (e : Effect V J) (v : V) : StateTransition V :=
  (e.lookupState ident (ident v)).getD (.NoValue v)

instance {E A : Type} [DecidableEq E] [DecidableEq A] : DecidableEq (Except E A) :=
  fun x y =>
    match x, y with
    | .error a, .error b => decidable_of_iff (a = b) (by simp)
    | .ok a, .ok b => decidable_of_iff (a = b) (by simp)
    | .error _, .ok _ => isFalse (by simp)
    | .ok _, .error _ => isFalse (by simp)

/-- Collect a list of fallible results, propagating the first error (the
Python generators are forced inside `of_values_with_state`, so an
exception in any element aborts the whole combination). -/
def exceptList {E A : Type} : List (Except E A) → Except E (List A)
  | [] => .ok []
  | .error e :: _ => .error e
  | .ok a :: xs =>
    match exceptList xs with
    | .error e => .error e
    | .ok as => .ok (a :: as)

/-- `Effect.__and__`: partition the identities of the two effects into
left-only, shared and right-only; carry unique identities forward via
`value_with_state_by_value`, merge shared identities' tags via the §4.2
table, and rebuild with `of_values_with_state` around the right operand's
`just` value. -/
def Effect.and [DecidableEq ι] [DecidableEq V] (ident : V → ι)
    (l : Effect V J) (r : Effect V J') :
    Except InvalidStateTransitionError (Effect V J') :=
  let left_values := IVSet.ofList ident (l.toList ident)
  let right_values := IVSet.ofList ident (r.toList ident)
  let left_difference := IVSet.diff ident left_values right_values
  let intersection := IVSet.inter ident left_values right_values
  let right_difference := IVSet.diff ident right_values left_values
  let next_left := left_difference.map l.value_with_state_by_value
  let inter_results := intersection.map fun v =>
    (l.value_with_state_by_identity ident v).combine
      (r.value_with_state_by_identity ident v)
  let next_right := right_difference.map r.value_with_state_by_value
  match exceptList inter_results with
  | .error e => .error e
  | .ok inter_values =>
    .ok (Effect.of_values_with_state ident r.just
      (next_left ++ inter_values ++ next_right))

/-- `Effect.map` as written in the source: the constructor call passes
`new_values`, `mutated_values` and `dead_values` but not
`translated_values`, which therefore takes the dataclass default (the
empty set). -/
def Effect.map (e : Effect V J) (func : J → J') : Effect V J' where
  just := func e.just
  new_values := e.new_values
  mutated_values := e.mutated_values
  dead_values := e.dead_values

/-- `Effect.and_then`: `self & func(self.just)`. -/
def Effect.and_then [DecidableEq ι] [DecidableEq V] (ident : V → ι)
    (e : Effect V J) (func : J → Effect V J') :
    Except InvalidStateTransitionError (Effect V J') :=
  Effect.and ident e (func e.just)

/-- Equality of effects as the Python dataclass `==`: equal `just` values
and, bucket by bucket, equal identity-keyed sets. -/
def Effect.beq [DecidableEq ι] [DecidableEq V] [DecidableEq J] (ident : V → ι)
    (e1 e2 : Effect V J) : Bool :=
  decide (e1.just = e2.just) &&
  IVSet.beq ident e1.new_values e2.new_values &&
  IVSet.beq ident e1.translated_values e2.translated_values &&
  IVSet.beq ident e1.mutated_values e2.mutated_values &&
  IVSet.beq ident e1.dead_values e2.dead_values

/-- Well-formedness of an effect, from the §3 data-model invariants: each
bucket is a genuine identity-keyed set (distinct keys) and a given
identity appears in at most one of the four buckets. -/
def Effect.Wf (ident : V → ι) (e : Effect V J) : Prop :=
  IVSet.NodupKeys ident e.new_values ∧
  IVSet.NodupKeys ident e.translated_values ∧
  IVSet.NodupKeys ident e.mutated_values ∧
  IVSet.NodupKeys ident e.dead_values ∧
  IVSet.KeysDisjoint ident e.new_values e.translated_values ∧
  IVSet.KeysDisjoint ident e.new_values e.mutated_values ∧
  IVSet.KeysDisjoint ident e.new_values e.dead_values ∧
  IVSet.KeysDisjoint ident e.translated_values e.mutated_values ∧
  IVSet.KeysDisjoint ident e.translated_values e.dead_values ∧
  IVSet.KeysDisjoint ident e.mutated_values e.dead_values

/-- The per-identity effect of combination, assuming no error: an
identity present on one side only is carried forward; an identity present
on both sides gets the table's combination, a neutral result dropping it
from the buckets altogether. -/
def andState [DecidableEq V] :
    Option (StateTransition V) → Option (StateTransition V) →
    Option (StateTransition V)
  | none, none => none
  | some s, none => some s
  | none, some t => some t
  | some s, some t =>
    match s.combine t with
    | .ok (.NoValue _) => none
    | .ok u => some u
    | .error _ => none

/-- The five tag constructors, reified for statements quantifying over
tags. -/
inductive TagKind : Type where
  | N | T | M | D | E
deriving DecidableEq, Repr

/-- Apply a tag constructor to a value. -/
def TagKind.apply : TagKind → V → StateTransition V
  | .N, v => .NewValue v
  | .T, v => .TranslatedValue v
  | .M, v => .MutatedValue v
  | .D, v => .DeadValue v
  | .E, v => .NoValue v

/-- The seven (left, right) tag pairs the §4.2 table marks invalid. -/
def invalidPairs : List (TagKind × TagKind) :=
  [(.N, .T), (.T, .N), (.M, .N), (.M, .T), (.D, .N), (.D, .T), (.D, .M)]

/-- Extract a successful result, with a default for the error case. -/
def okD {E A : Type} (x : Except E A) (d : A) : A :=
  match x with
  | .ok a => a
  | .error _ => d

/-- Find the tagged value with the given identity key in a list of tagged
values, dropping it when its tag is the neutral one (this is what the
four bucket lookups of an effect built by `of_values_with_state` amount
to, when the list mentions each identity at most once). -/
def stKeyFind [DecidableEq ι] (ident : V → ι) (vs : List (StateTransition V)) (i : ι) :
    Option (StateTransition V) :=
  match vs.find? fun x => decide (ident x.just = i) with
  | some x => if x.isNo then none else some x
  | none => none

/-- No shared identity of the two effects combines to the neutral
`NoValue` tag (that is, no create-then-delete or translate-then-delete
pairing arises between them). -/
def NoNeutralStep [DecidableEq ι] [DecidableEq V] (ident : V → ι)
    (l : Effect V J) (r : Effect V J') : Prop :=
  ∀ i s t v, l.lookupState ident i = some s → r.lookupState ident i = some t →
    s.combine t ≠ Except.ok (.NoValue v)

instance {V ι : Type} [DecidableEq ι] (ident : V → ι) (s : List V) :
    Decidable (IVSet.NodupKeys ident s) :=
  inferInstanceAs (Decidable (s.map ident).Nodup)

instance {V ι : Type} [DecidableEq ι] (ident : V → ι) (s t : List V) :
    Decidable (IVSet.KeysDisjoint ident s t) :=
  inferInstanceAs (Decidable (∀ v ∈ s, ∀ w ∈ t, ident v ≠ ident w))

instance {V ι J : Type} [DecidableEq ι] (ident : V → ι) (e : Effect V J) :
    Decidable (e.Wf ident) :=
  inferInstanceAs (Decidable
    (IVSet.NodupKeys ident e.new_values ∧
     IVSet.NodupKeys ident e.translated_values ∧
     IVSet.NodupKeys ident e.mutated_values ∧
     IVSet.NodupKeys ident e.dead_values ∧
     IVSet.KeysDisjoint ident e.new_values e.translated_values ∧
     IVSet.KeysDisjoint ident e.new_values e.mutated_values ∧
     IVSet.KeysDisjoint ident e.new_values e.dead_values ∧
     IVSet.KeysDisjoint ident e.translated_values e.mutated_values ∧
     IVSet.KeysDisjoint ident e.translated_values e.dead_values ∧
     IVSet.KeysDisjoint ident e.mutated_values e.dead_values))

instance {V ι J J' : Type} [DecidableEq V] [DecidableEq ι] [Fintype V] [Fintype ι]
    (ident : V → ι) (l : Effect V J) (r : Effect V J') :
    Decidable (NoNeutralStep ident l r) :=
  inferInstanceAs (Decidable (∀ i s t v,
    l.lookupState ident i = some s → r.lookupState ident i = some t →
    s.combine t ≠ Except.ok (.NoValue v)))

/-- The per-shared-identity combination results computed inside
`Effect.__and__` (one fallible tag combination per identity in the
intersection). -/
def Effect.interResults [DecidableEq ι] [DecidableEq V] (ident : V → ι)
    (l : Effect V J) (r : Effect V J') :
    List (Except InvalidStateTransitionError (StateTransition V)) :=
  (IVSet.inter ident (IVSet.ofList ident (l.toList ident))
      (IVSet.ofList ident (r.toList ident))).map fun v =>
    (l.value_with_state_by_identity ident v).combine
      (r.value_with_state_by_identity ident v)

/-- The tagged values `Effect.__and__` carries forward for identities
present only in the left operand. -/
def Effect.nextLeft [DecidableEq ι] [DecidableEq V] (ident : V → ι)
    (l : Effect V J) (r : Effect V J') : List (StateTransition V) :=
  (IVSet.diff ident (IVSet.ofList ident (l.toList ident))
      (IVSet.ofList ident (r.toList ident))).map l.value_with_state_by_value

/-- The tagged values `Effect.__and__` carries forward for identities
present only in the right operand. -/
def Effect.nextRight [DecidableEq ι] [DecidableEq V] (ident : V → ι)
    (l : Effect V J) (r : Effect V J') : List (StateTransition V) :=
  (IVSet.diff ident (IVSet.ofList ident (r.toList ident))
      (IVSet.ofList ident (l.toList ident))).map r.value_with_state_by_value

/-! ### Basic lemmas about identity-keyed sets -/

theorem IVSet.hasKey_iff [DecidableEq ι] {ident : V → ι} {s : List V} {i : ι} :
    IVSet.hasKey ident s i = true ↔ ∃ v ∈ s, ident v = i := by
  simp [IVSet.hasKey]

theorem IVSet.keyLookup_eq_none_iff [DecidableEq ι] {ident : V → ι} {s : List V} {i : ι} :
    IVSet.keyLookup ident s i = none ↔ ∀ v ∈ s, ident v ≠ i := by
  simp [IVSet.keyLookup, List.find?_eq_none]

theorem IVSet.keyLookup_mem [DecidableEq ι] {ident : V → ι} {s : List V} {i : ι} {w : V}
    (h : IVSet.keyLookup ident s i = some w) : w ∈ s :=
  List.mem_of_find?_eq_some h

theorem IVSet.keyLookup_ident [DecidableEq ι] {ident : V → ι} {s : List V} {i : ι} {w : V}
    (h : IVSet.keyLookup ident s i = some w) : ident w = i := by
  rw [IVSet.keyLookup] at h
  have h2 := List.find?_some h
  simp only [decide_eq_true_eq] at h2
  exact h2

theorem IVSet.hasKey_eq_isSome [DecidableEq ι] (ident : V → ι) (s : List V) (i : ι) :
    IVSet.hasKey ident s i = (IVSet.keyLookup ident s i).isSome := by
  rw [Bool.eq_iff_iff]
  simp [IVSet.hasKey, IVSet.keyLookup, List.find?_isSome]

theorem IVSet.keyLookup_append [DecidableEq ι] (ident : V → ι) (s t : List V) (i : ι) :
    IVSet.keyLookup ident (s ++ t) i =
      (IVSet.keyLookup ident s i).or (IVSet.keyLookup ident t i) :=
  List.find?_append

theorem IVSet.hasKey_append [DecidableEq ι] (ident : V → ι) (s t : List V) (i : ι) :
    IVSet.hasKey ident (s ++ t) i = (IVSet.hasKey ident s i || IVSet.hasKey ident t i) :=
  List.any_append

theorem IVSet.hasKey_of_mem [DecidableEq ι] {ident : V → ι} {s : List V} {v : V}
    (h : v ∈ s) : IVSet.hasKey ident s (ident v) = true :=
  IVSet.hasKey_iff.mpr ⟨v, h, rfl⟩

theorem IVSet.mem_ofList [DecidableEq ι] {ident : V → ι} {s : List V} {w : V}
    (h : w ∈ IVSet.ofList ident s) : w ∈ s := by
  induction s with
  | nil => exact h
  | cons v rest ih =>
    rw [IVSet.ofList] at h
    by_cases hk : IVSet.hasKey ident rest (ident v) = true
    · rw [if_pos hk] at h
      exact List.mem_cons_of_mem v (ih h)
    · rw [if_neg hk] at h
      rcases List.mem_cons.mp h with h | h
      · exact h ▸ List.mem_cons_self v rest
      · exact List.mem_cons_of_mem v (ih h)

theorem IVSet.hasKey_ofList [DecidableEq ι] (ident : V → ι) (s : List V) (i : ι) :
    IVSet.hasKey ident (IVSet.ofList ident s) i = IVSet.hasKey ident s i := by
  induction s with
  | nil => rfl
  | cons v rest ih =>
    rw [IVSet.ofList]
    by_cases hk : IVSet.hasKey ident rest (ident v) = true
    · rw [if_pos hk]
      rw [Bool.eq_iff_iff] at ih ⊢
      rw [ih]
      constructor
      · intro h
        rcases IVSet.hasKey_iff.mp h with ⟨w, hw, hwi⟩
        exact IVSet.hasKey_iff.mpr ⟨w, List.mem_cons_of_mem v hw, hwi⟩
      · intro h
        rcases IVSet.hasKey_iff.mp h with ⟨w, hw, hwi⟩
        rcases List.mem_cons.mp hw with hw | hw
        · subst hw
          rcases IVSet.hasKey_iff.mp (hwi ▸ hk) with ⟨u, hu, hui⟩
          exact IVSet.hasKey_iff.mpr ⟨u, hu, hui⟩
        · exact IVSet.hasKey_iff.mpr ⟨w, hw, hwi⟩
    · rw [if_neg hk]
      rw [Bool.eq_iff_iff] at ih ⊢
      simp only [IVSet.hasKey_iff] at ih ⊢
      constructor
      · rintro ⟨w, hw, hwi⟩
        rcases List.mem_cons.mp hw with hw | hw
        · exact ⟨w, hw ▸ List.mem_cons_self v rest, hwi⟩
        · rcases ih.mp ⟨w, hw, hwi⟩ with ⟨u, hu, hui⟩
          exact ⟨u, List.mem_cons_of_mem v hu, hui⟩
      · rintro ⟨w, hw, hwi⟩
        rcases List.mem_cons.mp hw with hw | hw
        · subst hw
          exact ⟨w, List.mem_cons_self w (IVSet.ofList ident rest), hwi⟩
        · rcases ih.mpr ⟨w, hw, hwi⟩ with ⟨u, hu, hui⟩
          exact ⟨u, List.mem_cons_of_mem v hu, hui⟩

theorem IVSet.ofList_eq_self [DecidableEq ι] {ident : V → ι} {s : List V}
    (h : IVSet.NodupKeys ident s) : IVSet.ofList ident s = s := by
  induction s with
  | nil => rfl
  | cons v rest ih =>
    rw [IVSet.NodupKeys, List.map_cons, List.nodup_cons] at h
    have hk : ¬ IVSet.hasKey ident rest (ident v) = true := by
      intro hc
      rcases IVSet.hasKey_iff.mp hc with ⟨w, hw, hwi⟩
      exact h.1 (hwi ▸ List.mem_map_of_mem ident hw)
    rw [IVSet.ofList, if_neg hk, ih h.2]

theorem IVSet.nodupKeys_append [DecidableEq ι] {ident : V → ι} {s t : List V} :
    IVSet.NodupKeys ident (s ++ t) ↔
      IVSet.NodupKeys ident s ∧ IVSet.NodupKeys ident t ∧ IVSet.KeysDisjoint ident s t := by
  rw [IVSet.NodupKeys, List.map_append, List.nodup_append]
  constructor
  · rintro ⟨h1, h2, h3⟩
    refine ⟨h1, h2, ?_⟩
    intro v hv w hw he
    exact h3 (List.mem_map_of_mem ident hv) (he ▸ List.mem_map_of_mem ident hw)
  · rintro ⟨h1, h2, h3⟩
    refine ⟨h1, h2, ?_⟩
    intro i hi hj
    rcases List.mem_map.mp hi with ⟨v, hv, rfl⟩
    rcases List.mem_map.mp hj with ⟨w, hw, he⟩
    exact h3 v hv w hw he.symm

theorem IVSet.union_eq_append [DecidableEq ι] {ident : V → ι} {s t : List V}
    (h : IVSet.KeysDisjoint ident s t) : IVSet.union ident s t = s ++ t := by
  rw [IVSet.union]
  congr 1
  rw [List.filter_eq_self]
  intro v hv
  rw [Bool.not_eq_true']
  rw [Bool.eq_false_iff]
  intro hc
  rcases IVSet.hasKey_iff.mp hc with ⟨w, hw, hwi⟩
  exact h v hv w hw hwi.symm

theorem IVSet.hasKey_union [DecidableEq ι] (ident : V → ι) (s t : List V) (i : ι) :
    IVSet.hasKey ident (IVSet.union ident s t) i =
      (IVSet.hasKey ident s i || IVSet.hasKey ident t i) := by
  rw [IVSet.union, IVSet.hasKey_append, Bool.eq_iff_iff]
  simp only [Bool.or_eq_true, IVSet.hasKey_iff]
  constructor
  · rintro (⟨w, hw, hwi⟩ | h)
    · exact Or.inl ⟨w, (List.mem_filter.mp hw).1, hwi⟩
    · exact Or.inr h
  · rintro (⟨w, hw, hwi⟩ | h)
    · by_cases hw2 : IVSet.hasKey ident t (ident w) = true
      · rcases IVSet.hasKey_iff.mp hw2 with ⟨u, hu, hui⟩
        exact Or.inr ⟨u, hu, hwi ▸ hui⟩
      · refine Or.inl ⟨w, List.mem_filter.mpr ⟨hw, ?_⟩, hwi⟩
        rw [Bool.not_eq_true] at hw2
        rw [hw2]
        rfl
    · exact Or.inr h

theorem exceptList_map_ok {E A : Type} (ys : List A) :
    exceptList (ys.map (Except.ok (ε := E))) = .ok ys := by
  induction ys with
  | nil => rfl
  | cons y ys ih =>
    rw [List.map_cons, exceptList, ih]

theorem exceptList_ok_shape {E A : Type} {xs : List (Except E A)} {ys : List A}
    (h : exceptList xs = .ok ys) : xs = ys.map Except.ok := by
  induction xs generalizing ys with
  | nil =>
    rw [exceptList] at h
    injection h with h
    rw [← h]
    rfl
  | cons x xs ih =>
    cases x with
    | error e =>
      rw [exceptList] at h
      exact absurd h (by simp)
    | ok a =>
      rw [exceptList] at h
      cases h2 : exceptList xs with
      | error e =>
        rw [h2] at h
        exact absurd h (by simp)
      | ok as =>
        rw [h2] at h
        injection h with h
        rw [← h, List.map_cons, ih h2]

theorem exceptList_ok_iff {E A : Type} {xs : List (Except E A)} {ys : List A} :
    exceptList xs = .ok ys ↔ xs = ys.map Except.ok :=
  ⟨exceptList_ok_shape, fun h => h ▸ exceptList_map_ok ys⟩

theorem exceptList_error_iff {E A : Type} {xs : List (Except E A)} :
    (∃ e, exceptList xs = .error e) ↔ ∃ x ∈ xs, ∃ e, x = .error e := by
  induction xs with
  | nil =>
    simp [exceptList]
  | cons x xs ih =>
    cases x with
    | error e =>
      simp [exceptList]
    | ok a =>
      constructor
      · rintro ⟨e, he⟩
        rw [exceptList] at he
        cases h2 : exceptList xs with
        | error e2 =>
          rcases ih.mp ⟨e2, h2⟩ with ⟨x, hx, hxe⟩
          exact ⟨x, List.mem_cons_of_mem _ hx, hxe⟩
        | ok as =>
          rw [h2] at he
          exact absurd he (by simp)
      · rintro ⟨x, hx, e, hxe⟩
        rcases List.mem_cons.mp hx with hx | hx
        · rw [hx] at hxe
          exact absurd hxe (by simp)
        · rcases ih.mpr ⟨x, hx, e, hxe⟩ with ⟨e2, he2⟩
          rw [exceptList, he2]
          exact ⟨e2, rfl⟩

theorem IVSet.nodupKeys_ofList [DecidableEq ι] (ident : V → ι) (s : List V) :
    IVSet.NodupKeys ident (IVSet.ofList ident s) := by
  induction s with
  | nil => exact List.nodup_nil
  | cons v rest ih =>
    rw [IVSet.ofList]
    by_cases hk : IVSet.hasKey ident rest (ident v) = true
    · rw [if_pos hk]
      exact ih
    · rw [if_neg hk]
      rw [IVSet.NodupKeys, List.map_cons, List.nodup_cons]
      refine ⟨?_, ih⟩
      intro hc
      rcases List.mem_map.mp hc with ⟨w, hw, hwi⟩
      exact hk (IVSet.hasKey_iff.mpr ⟨w, IVSet.mem_ofList hw, hwi⟩)

theorem IVSet.mem_union_elim [DecidableEq ι] {ident : V → ι} {s t : List V} {w : V}
    (h : w ∈ IVSet.union ident s t) : w ∈ s ∨ w ∈ t := by
  rcases List.mem_append.mp h with h | h
  · exact Or.inl (List.mem_filter.mp h).1
  · exact Or.inr h

theorem IVSet.keysDisjoint_append_left [DecidableEq ι] {ident : V → ι} {s t u : List V}
    (h1 : IVSet.KeysDisjoint ident s u) (h2 : IVSet.KeysDisjoint ident t u) :
    IVSet.KeysDisjoint ident (s ++ t) u := by
  intro v hv w hw
  rcases List.mem_append.mp hv with hv | hv
  · exact h1 v hv w hw
  · exact h2 v hv w hw

theorem StateTransition.combine_just [DecidableEq V] {s t u : StateTransition V}
    (h : s.combine t = .ok u) : u.just = s.just ∨ u.just = t.just := by
  cases s <;> cases t <;>
    simp only [StateTransition.combine] at h <;>
    first
    | (injection h with h2; subst h2; simp [StateTransition.just])
    | exact absurd h (by simp)
    | (rename_i a b
       by_cases hab : a = b
       · rw [if_pos hab] at h
         injection h with h2
         subst h2
         simp [StateTransition.just]
       · rw [if_neg hab] at h
         exact absurd h (by simp))

theorem Effect.lookupState_ne_no [DecidableEq ι] (ident : V → ι) (e : Effect V J)
    (i : ι) (w : V) :
    e.lookupState ident i ≠ some (.NoValue w) := by
  rw [Effect.lookupState]
  cases IVSet.keyLookup ident e.new_values i <;>
    cases IVSet.keyLookup ident e.translated_values i <;>
    cases IVSet.keyLookup ident e.mutated_values i <;>
    cases IVSet.keyLookup ident e.dead_values i <;>
    simp

theorem Effect.lookupState_not_no [DecidableEq ι] {ident : V → ι} {e : Effect V J}
    {i : ι} {s : StateTransition V}
    (h : e.lookupState ident i = some s) : s.isNo = false := by
  cases s with
  | NewValue w => rfl
  | TranslatedValue w => rfl
  | MutatedValue w => rfl
  | DeadValue w => rfl
  | NoValue w => exact absurd h (Effect.lookupState_ne_no ident e i w)

theorem Effect.lookupState_none_iff [DecidableEq ι] {ident : V → ι} {e : Effect V J} {i : ι} :
    e.lookupState ident i = none ↔
      IVSet.keyLookup ident e.new_values i = none ∧
      IVSet.keyLookup ident e.translated_values i = none ∧
      IVSet.keyLookup ident e.mutated_values i = none ∧
      IVSet.keyLookup ident e.dead_values i = none := by
  rw [Effect.lookupState]
  cases IVSet.keyLookup ident e.new_values i <;>
    cases IVSet.keyLookup ident e.translated_values i <;>
    cases IVSet.keyLookup ident e.mutated_values i <;>
    cases IVSet.keyLookup ident e.dead_values i <;>
    simp

theorem Effect.lookupState_new_iff [DecidableEq ι] {ident : V → ι} {e : Effect V J}
    {i : ι} {w : V} :
    e.lookupState ident i = some (.NewValue w) ↔
      IVSet.keyLookup ident e.new_values i = some w := by
  rw [Effect.lookupState]
  cases IVSet.keyLookup ident e.new_values i <;>
    cases IVSet.keyLookup ident e.translated_values i <;>
    cases IVSet.keyLookup ident e.mutated_values i <;>
    cases IVSet.keyLookup ident e.dead_values i <;>
    simp

theorem Effect.lookupState_translated_iff [DecidableEq ι] {ident : V → ι} {e : Effect V J}
    {i : ι} {w : V} :
    e.lookupState ident i = some (.TranslatedValue w) ↔
      IVSet.keyLookup ident e.new_values i = none ∧
      IVSet.keyLookup ident e.translated_values i = some w := by
  rw [Effect.lookupState]
  cases IVSet.keyLookup ident e.new_values i <;>
    cases IVSet.keyLookup ident e.translated_values i <;>
    cases IVSet.keyLookup ident e.mutated_values i <;>
    cases IVSet.keyLookup ident e.dead_values i <;>
    simp

theorem Effect.lookupState_mutated_iff [DecidableEq ι] {ident : V → ι} {e : Effect V J}
    {i : ι} {w : V} :
    e.lookupState ident i = some (.MutatedValue w) ↔
      IVSet.keyLookup ident e.new_values i = none ∧
      IVSet.keyLookup ident e.translated_values i = none ∧
      IVSet.keyLookup ident e.mutated_values i = some w := by
  rw [Effect.lookupState]
  cases IVSet.keyLookup ident e.new_values i <;>
    cases IVSet.keyLookup ident e.translated_values i <;>
    cases IVSet.keyLookup ident e.mutated_values i <;>
    cases IVSet.keyLookup ident e.dead_values i <;>
    simp

theorem Effect.lookupState_dead_iff [DecidableEq ι] {ident : V → ι} {e : Effect V J}
    {i : ι} {w : V} :
    e.lookupState ident i = some (.DeadValue w) ↔
      IVSet.keyLookup ident e.new_values i = none ∧
      IVSet.keyLookup ident e.translated_values i = none ∧
      IVSet.keyLookup ident e.mutated_values i = none ∧
      IVSet.keyLookup ident e.dead_values i = some w := by
  rw [Effect.lookupState]
  cases IVSet.keyLookup ident e.new_values i <;>
    cases IVSet.keyLookup ident e.translated_values i <;>
    cases IVSet.keyLookup ident e.mutated_values i <;>
    cases IVSet.keyLookup ident e.dead_values i <;>
    simp

theorem Effect.hasKey_toList [DecidableEq ι] (ident : V → ι) (e : Effect V J) (i : ι) :
    IVSet.hasKey ident (e.toList ident) i =
      (((IVSet.hasKey ident e.new_values i || IVSet.hasKey ident e.translated_values i) ||
        IVSet.hasKey ident e.mutated_values i) || IVSet.hasKey ident e.dead_values i) := by
  rw [Effect.toList, IVSet.hasKey_union, IVSet.hasKey_union, IVSet.hasKey_union]

theorem Effect.hasKey_toList_eq_isSome [DecidableEq ι] (ident : V → ι) (e : Effect V J)
    (i : ι) :
    IVSet.hasKey ident (e.toList ident) i = (e.lookupState ident i).isSome := by
  rw [Effect.hasKey_toList, Effect.lookupState,
    IVSet.hasKey_eq_isSome, IVSet.hasKey_eq_isSome, IVSet.hasKey_eq_isSome,
    IVSet.hasKey_eq_isSome]
  cases IVSet.keyLookup ident e.new_values i <;>
    cases IVSet.keyLookup ident e.translated_values i <;>
    cases IVSet.keyLookup ident e.mutated_values i <;>
    cases IVSet.keyLookup ident e.dead_values i <;>
    rfl

theorem Effect.mem_toList_elim [DecidableEq ι] {ident : V → ι} {e : Effect V J} {w : V}
    (h : w ∈ e.toList ident) :
    w ∈ e.new_values ∨ w ∈ e.translated_values ∨ w ∈ e.mutated_values ∨
      w ∈ e.dead_values := by
  rw [Effect.toList] at h
  rcases IVSet.mem_union_elim h with h | h
  · rcases IVSet.mem_union_elim h with h | h
    · rcases IVSet.mem_union_elim h with h | h
      · exact Or.inl h
      · exact Or.inr (Or.inl h)
    · exact Or.inr (Or.inr (Or.inl h))
  · exact Or.inr (Or.inr (Or.inr h))

theorem Effect.vwsbv_just [DecidableEq V] (e : Effect V J) (v : V) :
    (e.value_with_state_by_value v).just = v := by
  rw [Effect.value_with_state_by_value]
  split_ifs <;> rfl

theorem Effect.vwsbv_of_lookupState [DecidableEq ι] [DecidableEq V] {ident : V → ι}
    {e : Effect V J} {i : ι} {s : StateTransition V}
    (h : e.lookupState ident i = some s) :
    e.value_with_state_by_value s.just = s := by
  cases s with
  | NewValue w =>
    have hk := Effect.lookupState_new_iff.mp h
    rw [StateTransition.just, Effect.value_with_state_by_value,
      if_pos (IVSet.keyLookup_mem hk)]
  | TranslatedValue w =>
    rcases Effect.lookupState_translated_iff.mp h with ⟨h1, h2⟩
    have hwid : ident w = i := IVSet.keyLookup_ident h2
    have hn1 : w ∉ e.new_values := fun hc =>
      (IVSet.keyLookup_eq_none_iff.mp h1) w hc hwid
    rw [StateTransition.just, Effect.value_with_state_by_value, if_neg hn1,
      if_pos (IVSet.keyLookup_mem h2)]
  | MutatedValue w =>
    rcases Effect.lookupState_mutated_iff.mp h with ⟨h1, h2, h3⟩
    have hwid : ident w = i := IVSet.keyLookup_ident h3
    have hn1 : w ∉ e.new_values := fun hc =>
      (IVSet.keyLookup_eq_none_iff.mp h1) w hc hwid
    have hn2 : w ∉ e.translated_values := fun hc =>
      (IVSet.keyLookup_eq_none_iff.mp h2) w hc hwid
    rw [StateTransition.just, Effect.value_with_state_by_value, if_neg hn1, if_neg hn2,
      if_pos (IVSet.keyLookup_mem h3)]
  | DeadValue w =>
    rcases Effect.lookupState_dead_iff.mp h with ⟨h1, h2, h3, h4⟩
    have hwid : ident w = i := IVSet.keyLookup_ident h4
    have hn1 : w ∉ e.new_values := fun hc =>
      (IVSet.keyLookup_eq_none_iff.mp h1) w hc hwid
    have hn2 : w ∉ e.translated_values := fun hc =>
      (IVSet.keyLookup_eq_none_iff.mp h2) w hc hwid
    have hn3 : w ∉ e.mutated_values := fun hc =>
      (IVSet.keyLookup_eq_none_iff.mp h3) w hc hwid
    rw [StateTransition.just, Effect.value_with_state_by_value, if_neg hn1, if_neg hn2,
      if_neg hn3, if_pos (IVSet.keyLookup_mem h4)]
  | NoValue w =>
    exact absurd h (Effect.lookupState_ne_no ident e i w)

/-! ### Effects under the well-formedness invariant -/

theorem Effect.toList_eq_append [DecidableEq ι] {ident : V → ι} {e : Effect V J}
    (wf : e.Wf ident) :
    e.toList ident =
      e.new_values ++ e.translated_values ++ e.mutated_values ++ e.dead_values := by
  obtain ⟨n1, n2, n3, n4, d12, d13, d14, d23, d24, d34⟩ := wf
  rw [Effect.toList, IVSet.union_eq_append d12,
    IVSet.union_eq_append (IVSet.keysDisjoint_append_left d13 d23),
    IVSet.union_eq_append
      (IVSet.keysDisjoint_append_left (IVSet.keysDisjoint_append_left d14 d24) d34)]

theorem Effect.nodupKeys_toList [DecidableEq ι] {ident : V → ι} {e : Effect V J}
    (wf : e.Wf ident) : IVSet.NodupKeys ident (e.toList ident) := by
  obtain ⟨n1, n2, n3, n4, d12, d13, d14, d23, d24, d34⟩ := wf
  rw [Effect.toList_eq_append ⟨n1, n2, n3, n4, d12, d13, d14, d23, d24, d34⟩]
  exact IVSet.nodupKeys_append.mpr
    ⟨IVSet.nodupKeys_append.mpr
      ⟨IVSet.nodupKeys_append.mpr ⟨n1, n2, d12⟩, n3,
        IVSet.keysDisjoint_append_left d13 d23⟩, n4,
      IVSet.keysDisjoint_append_left (IVSet.keysDisjoint_append_left d14 d24) d34⟩

theorem Effect.keyLookup_toList [DecidableEq ι] {ident : V → ι} {e : Effect V J}
    (wf : e.Wf ident) (i : ι) :
    IVSet.keyLookup ident (e.toList ident) i =
      (e.lookupState ident i).map StateTransition.just := by
  rw [Effect.toList_eq_append wf, IVSet.keyLookup_append, IVSet.keyLookup_append,
    IVSet.keyLookup_append, Effect.lookupState]
  cases IVSet.keyLookup ident e.new_values i <;>
    cases IVSet.keyLookup ident e.translated_values i <;>
    cases IVSet.keyLookup ident e.mutated_values i <;>
    cases IVSet.keyLookup ident e.dead_values i <;>
    rfl

/-! ### The buckets produced by `of_values_with_state` -/

theorem stKeyFind_not_no [DecidableEq ι] {ident : V → ι} {vs : List (StateTransition V)}
    {i : ι} {x : StateTransition V}
    (h : stKeyFind ident vs i = some x) : x.isNo = false := by
  rw [stKeyFind] at h
  split at h
  · rename_i y hy
    split at h
    · exact absurd h (by simp)
    · rename_i hno
      injection h with h
      subst h
      simpa using hno
  · exact absurd h (by simp)

theorem stKeyFind_key [DecidableEq ι] {ident : V → ι} {vs : List (StateTransition V)}
    {i : ι} {x : StateTransition V}
    (h : stKeyFind ident vs i = some x) : ident x.just = i := by
  rw [stKeyFind] at h
  split at h
  · rename_i y hy
    split at h
    · exact absurd h (by simp)
    · injection h with h
      subst h
      have h3 := List.find?_some hy
      simpa using h3
  · exact absurd h (by simp)

theorem stKeyFind_mem [DecidableEq ι] {ident : V → ι} {vs : List (StateTransition V)}
    {i : ι} {x : StateTransition V}
    (h : stKeyFind ident vs i = some x) : x ∈ vs := by
  rw [stKeyFind] at h
  split at h
  · rename_i y hy
    split at h
    · exact absurd h (by simp)
    · injection h with h
      subst h
      exact List.mem_of_find?_eq_some hy
  · exact absurd h (by simp)

theorem filterMap_st_sublist {f : StateTransition V → Option V}
    (hf : ∀ x w, f x = some w → w = x.just) (vs : List (StateTransition V)) :
    (vs.filterMap f).Sublist (vs.map StateTransition.just) := by
  induction vs with
  | nil => simp
  | cons x rest ih =>
    rw [List.filterMap_cons, List.map_cons]
    cases hx : f x with
    | none => exact ih.cons _
    | some w =>
      rw [hf x w hx]
      exact ih.cons₂ _

theorem nodupKeys_filterMap_st [DecidableEq ι] {ident : V → ι}
    {f : StateTransition V → Option V}
    (hf : ∀ x w, f x = some w → w = x.just)
    {vs : List (StateTransition V)}
    (hnd : (vs.map fun x => ident x.just).Nodup) :
    IVSet.NodupKeys ident (vs.filterMap f) := by
  rw [IVSet.NodupKeys]
  have hsub := (filterMap_st_sublist hf vs).map ident
  apply List.Nodup.sublist hsub
  rw [List.map_map]
  exact hnd

theorem keyLookup_filterMap_st [DecidableEq ι] {ident : V → ι}
    {f : StateTransition V → Option V}
    (hf : ∀ x w, f x = some w → w = x.just)
    (hfno : ∀ w, f (.NoValue w) = none)
    {vs : List (StateTransition V)}
    (hnd : (vs.map fun x => ident x.just).Nodup) (i : ι) :
    IVSet.keyLookup ident (vs.filterMap f) i = (stKeyFind ident vs i).bind f := by
  induction vs with
  | nil => rfl
  | cons x rest ih =>
    rw [List.map_cons, List.nodup_cons] at hnd
    have hrest := ih hnd.2
    by_cases hx : ident x.just = i
    · have hfind : (x :: rest).find? (fun y => decide (ident y.just = i)) = some x := by
        rw [List.find?_cons]
        simp [hx]
      have hnone : IVSet.keyLookup ident (rest.filterMap f) i = none := by
        rw [IVSet.keyLookup, List.find?_eq_none]
        intro w hw
        rcases List.mem_filterMap.mp hw with ⟨y, hy, hfy⟩
        rw [hf y w hfy]
        simp only [decide_eq_true_eq]
        intro hc
        exact hnd.1 (hx ▸ hc ▸ List.mem_map_of_mem (fun z => ident z.just) hy)
      rw [stKeyFind, hfind]
      cases hxs : f x with
      | none =>
        rw [List.filterMap_cons, hxs, hrest]
        cases x with
        | NoValue w =>
          rw [stKeyFind]
          have : rest.find? (fun y => decide (ident y.just = i)) = none := by
            rw [List.find?_eq_none]
            intro y hy
            simp only [decide_eq_true_eq]
            intro hc
            exact hnd.1 (hx ▸ hc ▸ List.mem_map_of_mem (fun z => ident z.just) hy)
          rw [this]
          simp [StateTransition.isNo, hfno]
        | NewValue w =>
          rw [stKeyFind]
          have : rest.find? (fun y => decide (ident y.just = i)) = none := by
            rw [List.find?_eq_none]
            intro y hy
            simp only [decide_eq_true_eq]
            intro hc
            exact hnd.1 (hx ▸ hc ▸ List.mem_map_of_mem (fun z => ident z.just) hy)
          rw [this]
          simp [StateTransition.isNo, hxs]
        | TranslatedValue w =>
          rw [stKeyFind]
          have : rest.find? (fun y => decide (ident y.just = i)) = none := by
            rw [List.find?_eq_none]
            intro y hy
            simp only [decide_eq_true_eq]
            intro hc
            exact hnd.1 (hx ▸ hc ▸ List.mem_map_of_mem (fun z => ident z.just) hy)
          rw [this]
          simp [StateTransition.isNo, hxs]
        | MutatedValue w =>
          rw [stKeyFind]
          have : rest.find? (fun y => decide (ident y.just = i)) = none := by
            rw [List.find?_eq_none]
            intro y hy
            simp only [decide_eq_true_eq]
            intro hc
            exact hnd.1 (hx ▸ hc ▸ List.mem_map_of_mem (fun z => ident z.just) hy)
          rw [this]
          simp [StateTransition.isNo, hxs]
        | DeadValue w =>
          rw [stKeyFind]
          have : rest.find? (fun y => decide (ident y.just = i)) = none := by
            rw [List.find?_eq_none]
            intro y hy
            simp only [decide_eq_true_eq]
            intro hc
            exact hnd.1 (hx ▸ hc ▸ List.mem_map_of_mem (fun z => ident z.just) hy)
          rw [this]
          simp [StateTransition.isNo, hxs]
      | some w =>
        have hwx : w = x.just := hf x w hxs
        have hxno : x.isNo = false := by
          cases x with
          | NoValue u => rw [hfno u] at hxs; exact absurd hxs (by simp)
          | NewValue u => rfl
          | TranslatedValue u => rfl
          | MutatedValue u => rfl
          | DeadValue u => rfl
        simp only [List.filterMap_cons, hxs, stKeyFind, hfind, hxno]
        simp only [Bool.false_eq_true, if_false, Option.some_bind]
        rw [IVSet.keyLookup, List.find?_cons]
        have : decide (ident w = i) = true := by
          rw [hwx]
          simp [hx]
        rw [this, hxs]
    · have hfind : ((x :: rest).find? fun y => decide (ident y.just = i)) =
          rest.find? fun y => decide (ident y.just = i) := by
        rw [List.find?_cons]
        simp [hx]
      rw [stKeyFind, hfind, ← stKeyFind]
      cases hxs : f x with
      | none =>
        rw [List.filterMap_cons, hxs]
        exact hrest
      | some w =>
        have hwx : w = x.just := hf x w hxs
        rw [List.filterMap_cons, hxs, IVSet.keyLookup, List.find?_cons]
        have : decide (ident w = i) = false := by
          rw [hwx]
          simp [hx]
        rw [this, ← IVSet.keyLookup]
        exact hrest

theorem StateTransition.newJust_eq_just (x : StateTransition V) (w : V)
    (h : x.newJust = some w) : w = x.just := by
  cases x with
  | NewValue v =>
    injection h with h
    exact h.symm
  | TranslatedValue v => exact absurd h (by simp [StateTransition.newJust])
  | MutatedValue v => exact absurd h (by simp [StateTransition.newJust])
  | DeadValue v => exact absurd h (by simp [StateTransition.newJust])
  | NoValue v => exact absurd h (by simp [StateTransition.newJust])

theorem StateTransition.translatedJust_eq_just (x : StateTransition V) (w : V)
    (h : x.translatedJust = some w) : w = x.just := by
  cases x with
  | NewValue v => exact absurd h (by simp [StateTransition.translatedJust])
  | TranslatedValue v =>
    injection h with h
    exact h.symm
  | MutatedValue v => exact absurd h (by simp [StateTransition.translatedJust])
  | DeadValue v => exact absurd h (by simp [StateTransition.translatedJust])
  | NoValue v => exact absurd h (by simp [StateTransition.translatedJust])

theorem StateTransition.mutatedJust_eq_just (x : StateTransition V) (w : V)
    (h : x.mutatedJust = some w) : w = x.just := by
  cases x with
  | NewValue v => exact absurd h (by simp [StateTransition.mutatedJust])
  | TranslatedValue v => exact absurd h (by simp [StateTransition.mutatedJust])
  | MutatedValue v =>
    injection h with h
    exact h.symm
  | DeadValue v => exact absurd h (by simp [StateTransition.mutatedJust])
  | NoValue v => exact absurd h (by simp [StateTransition.mutatedJust])

theorem StateTransition.deadJust_eq_just (x : StateTransition V) (w : V)
    (h : x.deadJust = some w) : w = x.just := by
  cases x with
  | NewValue v => exact absurd h (by simp [StateTransition.deadJust])
  | TranslatedValue v => exact absurd h (by simp [StateTransition.deadJust])
  | MutatedValue v => exact absurd h (by simp [StateTransition.deadJust])
  | DeadValue v =>
    injection h with h
    exact h.symm
  | NoValue v => exact absurd h (by simp [StateTransition.deadJust])

theorem Effect.lookupState_of_values [DecidableEq ι] {ident : V → ι} {just : J}
    {vs : List (StateTransition V)}
    (hnd : (vs.map fun x => ident x.just).Nodup) (i : ι) :
    (Effect.of_values_with_state ident just vs).lookupState ident i =
      stKeyFind ident vs i := by
  rw [Effect.lookupState]
  simp only [Effect.of_values_with_state]
  rw [IVSet.ofList_eq_self (nodupKeys_filterMap_st StateTransition.newJust_eq_just hnd),
    IVSet.ofList_eq_self (nodupKeys_filterMap_st StateTransition.translatedJust_eq_just hnd),
    IVSet.ofList_eq_self (nodupKeys_filterMap_st StateTransition.mutatedJust_eq_just hnd),
    IVSet.ofList_eq_self (nodupKeys_filterMap_st StateTransition.deadJust_eq_just hnd)]
  rw [keyLookup_filterMap_st StateTransition.newJust_eq_just (fun w => rfl) hnd i,
    keyLookup_filterMap_st StateTransition.translatedJust_eq_just (fun w => rfl) hnd i,
    keyLookup_filterMap_st StateTransition.mutatedJust_eq_just (fun w => rfl) hnd i,
    keyLookup_filterMap_st StateTransition.deadJust_eq_just (fun w => rfl) hnd i]
  cases h : stKeyFind ident vs i with
  | none => rfl
  | some x =>
    have hno := stKeyFind_not_no h
    cases x with
    | NewValue w => rfl
    | TranslatedValue w => rfl
    | MutatedValue w => rfl
    | DeadValue w => rfl
    | NoValue w => simp [StateTransition.isNo] at hno

theorem IVSet.keysDisjoint_ofList_filterMap [DecidableEq ι] {ident : V → ι}
    {f g : StateTransition V → Option V}
    (hf : ∀ x w, f x = some w → w = x.just) (hg : ∀ x w, g x = some w → w = x.just)
    (hfg : ∀ x : StateTransition V, f x = none ∨ g x = none)
    {vs : List (StateTransition V)}
    (hnd : (vs.map fun x => ident x.just).Nodup) :
    IVSet.KeysDisjoint ident (IVSet.ofList ident (vs.filterMap f))
      (IVSet.ofList ident (vs.filterMap g)) := by
  intro v hv w hw he
  rcases List.mem_filterMap.mp (IVSet.mem_ofList hv) with ⟨x, hx, hfx⟩
  rcases List.mem_filterMap.mp (IVSet.mem_ofList hw) with ⟨y, hy, hgy⟩
  have hvx := hf x v hfx
  have hwy := hg y w hgy
  have hxy : x = y := by
    refine List.inj_on_of_nodup_map hnd hx hy ?_
    show ident x.just = ident y.just
    rw [← hvx, ← hwy]
    exact he
  subst hxy
  rcases hfg x with h0 | h0
  · rw [h0] at hfx
    exact absurd hfx (by simp)
  · rw [h0] at hgy
    exact absurd hgy (by simp)

theorem Effect.wf_of_values [DecidableEq ι] {ident : V → ι} (just : J)
    {vs : List (StateTransition V)}
    (hnd : (vs.map fun x => ident x.just).Nodup) :
    (Effect.of_values_with_state ident just vs).Wf ident := by
  refine ⟨IVSet.nodupKeys_ofList ident _, IVSet.nodupKeys_ofList ident _,
    IVSet.nodupKeys_ofList ident _, IVSet.nodupKeys_ofList ident _, ?_, ?_, ?_, ?_, ?_, ?_⟩
  · exact IVSet.keysDisjoint_ofList_filterMap StateTransition.newJust_eq_just
      StateTransition.translatedJust_eq_just
      (fun x => by cases x <;> simp [StateTransition.newJust, StateTransition.translatedJust])
      hnd
  · exact IVSet.keysDisjoint_ofList_filterMap StateTransition.newJust_eq_just
      StateTransition.mutatedJust_eq_just
      (fun x => by cases x <;> simp [StateTransition.newJust, StateTransition.mutatedJust])
      hnd
  · exact IVSet.keysDisjoint_ofList_filterMap StateTransition.newJust_eq_just
      StateTransition.deadJust_eq_just
      (fun x => by cases x <;> simp [StateTransition.newJust, StateTransition.deadJust])
      hnd
  · exact IVSet.keysDisjoint_ofList_filterMap StateTransition.translatedJust_eq_just
      StateTransition.mutatedJust_eq_just
      (fun x => by cases x <;> simp [StateTransition.translatedJust, StateTransition.mutatedJust])
      hnd
  · exact IVSet.keysDisjoint_ofList_filterMap StateTransition.translatedJust_eq_just
      StateTransition.deadJust_eq_just
      (fun x => by cases x <;> simp [StateTransition.translatedJust, StateTransition.deadJust])
      hnd
  · exact IVSet.keysDisjoint_ofList_filterMap StateTransition.mutatedJust_eq_just
      StateTransition.deadJust_eq_just
      (fun x => by cases x <;> simp [StateTransition.mutatedJust, StateTransition.deadJust])
      hnd

/-! ### Lookup through difference and intersection -/

theorem IVSet.nodupKeys_filter [DecidableEq ι] {ident : V → ι} {s : List V} {p : V → Bool}
    (h : IVSet.NodupKeys ident s) : IVSet.NodupKeys ident (s.filter p) := by
  rw [IVSet.NodupKeys] at h ⊢
  exact List.Nodup.sublist ((List.filter_sublist s).map ident) h

theorem IVSet.keyLookup_cons [DecidableEq ι] (ident : V → ι) (v : V) (s : List V) (i : ι) :
    IVSet.keyLookup ident (v :: s) i =
      if ident v = i then some v else IVSet.keyLookup ident s i := by
  rw [IVSet.keyLookup, List.find?_cons]
  by_cases hv : ident v = i
  · have hd : decide (ident v = i) = true := by simpa using hv
    rw [hd, if_pos hv]
  · have hd : decide (ident v = i) = false := by simpa using hv
    rw [hd, if_neg hv]
    rfl

theorem IVSet.keyLookup_diff [DecidableEq ι] (ident : V → ι) (s t : List V) (i : ι) :
    IVSet.keyLookup ident (IVSet.diff ident s t) i =
      if IVSet.hasKey ident t i then none else IVSet.keyLookup ident s i := by
  induction s with
  | nil =>
    cases IVSet.hasKey ident t i <;> simp [IVSet.diff, IVSet.keyLookup]
  | cons v s ih =>
    rw [IVSet.diff, List.filter_cons, ← IVSet.diff]
    by_cases hv : IVSet.hasKey ident t (ident v) = true
    · rw [hv]
      simp only [Bool.not_true, Bool.false_eq_true, if_false]
      rw [ih, IVSet.keyLookup_cons]
      by_cases hk : IVSet.hasKey ident t i = true
      · rw [if_pos hk, if_pos hk]
      · rw [if_neg hk, if_neg hk]
        have hvi : ¬ ident v = i := fun hc => hk (hc ▸ hv)
        rw [if_neg hvi]
    · rw [Bool.not_eq_true] at hv
      rw [hv]
      simp only [Bool.not_false, if_true]
      rw [IVSet.keyLookup_cons, IVSet.keyLookup_cons]
      by_cases hvi : ident v = i
      · rw [if_pos hvi, if_pos hvi]
        have hk : IVSet.hasKey ident t i = false := hvi ▸ hv
        rw [hk]
        simp
      · rw [if_neg hvi, if_neg hvi, ih]

theorem IVSet.keyLookup_inter [DecidableEq ι] (ident : V → ι) (s t : List V) (i : ι) :
    IVSet.keyLookup ident (IVSet.inter ident s t) i =
      if IVSet.hasKey ident s i then IVSet.keyLookup ident t i else none := by
  induction t with
  | nil =>
    cases IVSet.hasKey ident s i <;> simp [IVSet.inter, IVSet.keyLookup]
  | cons v t ih =>
    rw [IVSet.inter, List.filter_cons, ← IVSet.inter]
    by_cases hv : IVSet.hasKey ident s (ident v) = true
    · rw [hv]
      simp only [if_true]
      rw [IVSet.keyLookup_cons, IVSet.keyLookup_cons]
      by_cases hvi : ident v = i
      · rw [if_pos hvi, if_pos hvi]
        have hk : IVSet.hasKey ident s i = true := hvi ▸ hv
        rw [hk]
        simp
      · rw [if_neg hvi, if_neg hvi, ih]
    · rw [Bool.not_eq_true] at hv
      rw [hv]
      simp only [Bool.false_eq_true, if_false]
      rw [ih, IVSet.keyLookup_cons]
      by_cases hk : IVSet.hasKey ident s i = true
      · rw [if_pos hk, if_pos hk]
        have hvi : ¬ ident v = i := by
          intro hc
          rw [hc] at hv
          rw [hv] at hk
          exact absurd hk (by simp)
        rw [if_neg hvi]
      · rw [if_neg hk, if_neg hk]

theorem Effect.lookupState_key [DecidableEq ι] {ident : V → ι} {e : Effect V J} {i : ι}
    {s : StateTransition V} (h : e.lookupState ident i = some s) : ident s.just = i := by
  cases s with
  | NewValue w => exact IVSet.keyLookup_ident (Effect.lookupState_new_iff.mp h)
  | TranslatedValue w => exact IVSet.keyLookup_ident (Effect.lookupState_translated_iff.mp h).2
  | MutatedValue w => exact IVSet.keyLookup_ident (Effect.lookupState_mutated_iff.mp h).2.2
  | DeadValue w => exact IVSet.keyLookup_ident (Effect.lookupState_dead_iff.mp h).2.2.2
  | NoValue w => exact absurd h (Effect.lookupState_ne_no ident e i w)

theorem find?_congr_mem {B : Type} {p q : B → Bool} {ws : List B}
    (h : ∀ w ∈ ws, p w = q w) : ws.find? p = ws.find? q := by
  induction ws with
  | nil => rfl
  | cons w ws ih =>
    rw [List.find?_cons, List.find?_cons, h w (List.mem_cons_self w ws)]
    cases q w
    · exact ih fun x hx => h x (List.mem_cons_of_mem w hx)
    · rfl

theorem map_okD_of_map_ok {E A B : Type} {ws : List B} {F : B → Except E A} {us : List A}
    (d : B → A) (h : us.map Except.ok = ws.map F) :
    us = ws.map fun v => okD (F v) (d v) := by
  induction ws generalizing us with
  | nil =>
    cases us with
    | nil => rfl
    | cons u us => exact absurd h (by simp)
  | cons w ws ih =>
    cases us with
    | nil => exact absurd h (by simp)
    | cons u us =>
      rw [List.map_cons, List.map_cons] at h
      injection h with h1 h2
      rw [List.map_cons, ih h2]
      congr 1
      rw [← h1]
      rfl

theorem exceptList_ok_forall {E A : Type} {xs : List (Except E A)} {ys : List A}
    (h : exceptList xs = .ok ys) : ∀ x ∈ xs, ∃ a, x = .ok a := by
  intro x hx
  rw [exceptList_ok_shape h] at hx
  rcases List.mem_map.mp hx with ⟨a, _, rfl⟩
  exact ⟨a, rfl⟩

/-! ### Characterizing `Effect.and` -/

theorem InvalidStateTransitionError.eq_mk (e : InvalidStateTransitionError) : e = .mk := by
  cases e
  rfl

theorem Effect.and_eq [DecidableEq ι] [DecidableEq V] (ident : V → ι)
    (l : Effect V J) (r : Effect V J') :
    Effect.and ident l r =
      match exceptList (Effect.interResults ident l r) with
      | .error e => .error e
      | .ok inter_values =>
        .ok (Effect.of_values_with_state ident r.just
          (Effect.nextLeft ident l r ++ inter_values ++ Effect.nextRight ident l r)) :=
  rfl

theorem Effect.and_error_iff [DecidableEq ι] [DecidableEq V] (ident : V → ι)
    (l : Effect V J) (r : Effect V J') :
    Effect.and ident l r = .error .mk ↔
      ∃ i s t, l.lookupState ident i = some s ∧ r.lookupState ident i = some t ∧
        s.combine t = .error .mk := by
  rw [Effect.and_eq]
  constructor
  · intro h
    split at h
    · rename_i e hE
      rcases exceptList_error_iff.mp ⟨e, hE⟩ with ⟨x, hx, e2, hxe⟩
      rw [Effect.interResults] at hx
      rcases List.mem_map.mp hx with ⟨v, hv, rfl⟩
      rcases List.mem_filter.mp hv with ⟨hvr, hvl⟩
      have hklB : IVSet.hasKey ident (IVSet.ofList ident (l.toList ident)) (ident v) = true :=
        hvl
      rw [IVSet.hasKey_ofList, Effect.hasKey_toList_eq_isSome] at hklB
      rcases Option.isSome_iff_exists.mp hklB with ⟨s, hs⟩
      have hkrB : IVSet.hasKey ident (IVSet.ofList ident (r.toList ident)) (ident v) = true :=
        IVSet.hasKey_of_mem hvr
      rw [IVSet.hasKey_ofList, Effect.hasKey_toList_eq_isSome] at hkrB
      rcases Option.isSome_iff_exists.mp hkrB with ⟨t, ht⟩
      refine ⟨ident v, s, t, hs, ht, ?_⟩
      rw [Effect.value_with_state_by_identity, hs,
        Effect.value_with_state_by_identity, ht] at hxe
      simp only [Option.getD_some] at hxe
      rw [hxe]
    · rename_i ivs hE
      exact absurd h (by simp)
  · rintro ⟨i, s, t, hs, ht, hc⟩
    have hkl : IVSet.hasKey ident (l.toList ident) i = true := by
      rw [Effect.hasKey_toList_eq_isSome, hs]
      rfl
    have hkr : IVSet.hasKey ident (r.toList ident) i = true := by
      rw [Effect.hasKey_toList_eq_isSome, ht]
      rfl
    have hkrv : IVSet.hasKey ident (IVSet.ofList ident (r.toList ident)) i = true := by
      rw [IVSet.hasKey_ofList]
      exact hkr
    rcases IVSet.hasKey_iff.mp hkrv with ⟨v, hvrv, hvi⟩
    have hvinter : v ∈ IVSet.inter ident (IVSet.ofList ident (l.toList ident))
        (IVSet.ofList ident (r.toList ident)) := by
      refine List.mem_filter.mpr ⟨hvrv, ?_⟩
      rw [hvi, IVSet.hasKey_ofList]
      exact hkl
    have hfe : (l.value_with_state_by_identity ident v).combine
        (r.value_with_state_by_identity ident v) = .error .mk := by
      rw [Effect.value_with_state_by_identity, hvi, hs,
        Effect.value_with_state_by_identity, hvi, ht]
      exact hc
    have hmem : ((l.value_with_state_by_identity ident v).combine
        (r.value_with_state_by_identity ident v)) ∈ Effect.interResults ident l r := by
      rw [Effect.interResults]
      exact List.mem_map_of_mem _ hvinter
    rcases exceptList_error_iff.mpr ⟨_, hmem, .mk, hfe⟩ with ⟨e2, he2⟩
    rw [he2, InvalidStateTransitionError.eq_mk e2]

theorem Effect.interValues_point [DecidableEq ι] [DecidableEq V] {ident : V → ι}
    {l : Effect V J} {r : Effect V J'} {v : V}
    (hv : v ∈ IVSet.inter ident (l.toList ident) (r.toList ident)) :
    ∃ s t, l.lookupState ident (ident v) = some s ∧
      r.lookupState ident (ident v) = some t ∧
      (l.value_with_state_by_identity ident v).combine
        (r.value_with_state_by_identity ident v) = s.combine t := by
  rcases List.mem_filter.mp hv with ⟨hvr, hvl⟩
  rw [Effect.hasKey_toList_eq_isSome] at hvl
  rcases Option.isSome_iff_exists.mp hvl with ⟨s, hs⟩
  have hvr2 : IVSet.hasKey ident (r.toList ident) (ident v) = true :=
    IVSet.hasKey_of_mem hvr
  rw [Effect.hasKey_toList_eq_isSome] at hvr2
  rcases Option.isSome_iff_exists.mp hvr2 with ⟨t, ht⟩
  refine ⟨s, t, hs, ht, ?_⟩
  rw [Effect.value_with_state_by_identity, hs, Effect.value_with_state_by_identity, ht]
  rw [Option.getD_some, Option.getD_some]

theorem Effect.interValue_key [DecidableEq ι] [DecidableEq V] {ident : V → ι}
    {l : Effect V J} {r : Effect V J'} {ivs : List (StateTransition V)}
    (hE : exceptList
      ((IVSet.inter ident (l.toList ident) (r.toList ident)).map fun v =>
        (l.value_with_state_by_identity ident v).combine
          (r.value_with_state_by_identity ident v)) = .ok ivs)
    {v : V} (hv : v ∈ IVSet.inter ident (l.toList ident) (r.toList ident)) :
    ident (okD ((l.value_with_state_by_identity ident v).combine
      (r.value_with_state_by_identity ident v)) (.NoValue v)).just = ident v := by
  rcases Effect.interValues_point hv with ⟨s, t, hs, ht, hcomb⟩
  rcases exceptList_ok_forall hE _ (List.mem_map_of_mem _ hv) with ⟨u, hu⟩
  rw [hu]
  have hu2 : s.combine t = .ok u := by rw [← hcomb, hu]
  rcases StateTransition.combine_just hu2 with h | h
  · rw [okD]
    rw [h, Effect.lookupState_key hs]
  · rw [okD]
    rw [h, Effect.lookupState_key ht]

theorem Effect.interValues_keys [DecidableEq ι] [DecidableEq V] {ident : V → ι}
    {l : Effect V J} {r : Effect V J'} {ivs : List (StateTransition V)}
    (hE : exceptList
      ((IVSet.inter ident (l.toList ident) (r.toList ident)).map fun v =>
        (l.value_with_state_by_identity ident v).combine
          (r.value_with_state_by_identity ident v)) = .ok ivs) :
    ivs.map (fun x => ident x.just) =
      (IVSet.inter ident (l.toList ident) (r.toList ident)).map ident := by
  have hivs := map_okD_of_map_ok (fun v => StateTransition.NoValue v)
    (exceptList_ok_shape hE).symm
  rw [hivs, List.map_map]
  refine List.map_congr_left ?_
  intro v hv
  exact Effect.interValue_key hE hv

theorem Effect.find_nextLeft [DecidableEq ι] [DecidableEq V] {ident : V → ι}
    {l : Effect V J} {r : Effect V J'} (wl : l.Wf ident) (i : ι) :
    ((IVSet.diff ident (l.toList ident) (r.toList ident)).map
        l.value_with_state_by_value).find? (fun x => decide (ident x.just = i)) =
      if (r.lookupState ident i).isSome then none else l.lookupState ident i := by
  rw [List.find?_map]
  rw [find?_congr_mem (q := fun v => decide (ident v = i))
    (fun w _ => by simp [Function.comp, Effect.vwsbv_just])]
  rw [← IVSet.keyLookup, IVSet.keyLookup_diff, Effect.hasKey_toList_eq_isSome,
    Effect.keyLookup_toList wl]
  by_cases hr : (r.lookupState ident i).isSome = true
  · rw [if_pos hr, if_pos hr]
    rfl
  · rw [Bool.not_eq_true] at hr
    rw [hr]
    simp only [Bool.false_eq_true, if_false]
    cases hls : l.lookupState ident i with
    | none => rfl
    | some s =>
      rw [Option.map_some', Option.map_some', Effect.vwsbv_of_lookupState hls]

theorem Effect.find_nextRight [DecidableEq ι] [DecidableEq V] {ident : V → ι}
    {l : Effect V J} {r : Effect V J'} (wr : r.Wf ident) (i : ι) :
    ((IVSet.diff ident (r.toList ident) (l.toList ident)).map
        r.value_with_state_by_value).find? (fun x => decide (ident x.just = i)) =
      if (l.lookupState ident i).isSome then none else r.lookupState ident i := by
  rw [List.find?_map]
  rw [find?_congr_mem (q := fun v => decide (ident v = i))
    (fun w _ => by simp [Function.comp, Effect.vwsbv_just])]
  rw [← IVSet.keyLookup, IVSet.keyLookup_diff, Effect.hasKey_toList_eq_isSome,
    Effect.keyLookup_toList wr]
  by_cases hr : (l.lookupState ident i).isSome = true
  · rw [if_pos hr, if_pos hr]
    rfl
  · rw [Bool.not_eq_true] at hr
    rw [hr]
    simp only [Bool.false_eq_true, if_false]
    cases hls : r.lookupState ident i with
    | none => rfl
    | some s =>
      rw [Option.map_some', Option.map_some', Effect.vwsbv_of_lookupState hls]

theorem Effect.find_interValues [DecidableEq ι] [DecidableEq V] {ident : V → ι}
    {l : Effect V J} {r : Effect V J'} {ivs : List (StateTransition V)}
    (wr : r.Wf ident)
    (hE : exceptList
      ((IVSet.inter ident (l.toList ident) (r.toList ident)).map fun v =>
        (l.value_with_state_by_identity ident v).combine
          (r.value_with_state_by_identity ident v)) = .ok ivs) (i : ι) :
    ivs.find? (fun x => decide (ident x.just = i)) =
      match l.lookupState ident i, r.lookupState ident i with
      | some s, some t => some (okD (s.combine t) (.NoValue t.just))
      | _, _ => none := by
  have hivs := map_okD_of_map_ok (fun v => StateTransition.NoValue v)
    (exceptList_ok_shape hE).symm
  rw [hivs, List.find?_map]
  rw [find?_congr_mem (q := fun v => decide (ident v = i))
    (fun w hw => by
      simp only [Function.comp]
      rw [Effect.interValue_key hE hw])]
  rw [← IVSet.keyLookup, IVSet.keyLookup_inter, Effect.hasKey_toList_eq_isSome,
    Effect.keyLookup_toList wr]
  cases hls : l.lookupState ident i with
  | none =>
    cases hrs : r.lookupState ident i with
    | none => rfl
    | some t => rfl
  | some s =>
    cases hrs : r.lookupState ident i with
    | none => rfl
    | some t =>
      simp only [Option.isSome_some, if_true, Option.map_some']
      have hit : ident t.just = i := Effect.lookupState_key hrs
      rw [Effect.value_with_state_by_identity, hit, hls,
        Effect.value_with_state_by_identity, hit, hrs, Option.getD_some, Option.getD_some]

theorem Effect.and_values_stKeyFind [DecidableEq ι] [DecidableEq V] {ident : V → ι}
    {l : Effect V J} {r : Effect V J'} {ivs : List (StateTransition V)}
    (wl : l.Wf ident) (wr : r.Wf ident)
    (hE : exceptList
      ((IVSet.inter ident (l.toList ident) (r.toList ident)).map fun v =>
        (l.value_with_state_by_identity ident v).combine
          (r.value_with_state_by_identity ident v)) = .ok ivs) (i : ι) :
    stKeyFind ident
      (((IVSet.diff ident (l.toList ident) (r.toList ident)).map
          l.value_with_state_by_value ++ ivs) ++
        (IVSet.diff ident (r.toList ident) (l.toList ident)).map
          r.value_with_state_by_value) i =
      andState (l.lookupState ident i) (r.lookupState ident i) := by
  rw [stKeyFind, List.find?_append, List.find?_append]
  rw [Effect.find_nextLeft wl i, Effect.find_nextRight wr i,
    Effect.find_interValues wr hE i]
  cases hls : l.lookupState ident i with
  | none =>
    cases hrs : r.lookupState ident i with
    | none => rfl
    | some t =>
      simp only [Option.isSome_some, Option.isSome_none, if_true, Bool.false_eq_true,
        if_false, Option.none_or, Option.or_some]
      rw [andState]
      have hno := Effect.lookupState_not_no hrs
      rw [hno]
      simp
  | some s =>
    cases hrs : r.lookupState ident i with
    | none =>
      simp only [Option.isSome_some, Option.isSome_none, if_true, Bool.false_eq_true,
        if_false, Option.none_or, Option.or_some]
      rw [andState]
      have hno := Effect.lookupState_not_no hls
      rw [hno]
      simp
    | some t =>
      simp only [Option.isSome_some, if_true, Option.none_or, Option.or_some]
      have hki : IVSet.keyLookup ident
          (IVSet.inter ident (l.toList ident) (r.toList ident)) i = some t.just := by
        rw [IVSet.keyLookup_inter, Effect.hasKey_toList_eq_isSome, hls,
          Effect.keyLookup_toList wr, hrs]
        rfl
      have hmem := IVSet.keyLookup_mem hki
      have hit : ident t.just = i := Effect.lookupState_key hrs
      rcases exceptList_ok_forall hE _ (List.mem_map_of_mem _ hmem) with ⟨u, hu⟩
      rw [Effect.value_with_state_by_identity, hit, hls,
        Effect.value_with_state_by_identity, hit, hrs, Option.getD_some,
        Option.getD_some] at hu
      rw [hu, andState, hu]
      cases u with
      | NewValue w => rfl
      | TranslatedValue w => rfl
      | MutatedValue w => rfl
      | DeadValue w => rfl
      | NoValue w => rfl

theorem Effect.and_values_nodup [DecidableEq ι] [DecidableEq V] {ident : V → ι}
    {l : Effect V J} {r : Effect V J'} {ivs : List (StateTransition V)}
    (wl : l.Wf ident) (wr : r.Wf ident)
    (hE : exceptList
      ((IVSet.inter ident (l.toList ident) (r.toList ident)).map fun v =>
        (l.value_with_state_by_identity ident v).combine
          (r.value_with_state_by_identity ident v)) = .ok ivs) :
    ((((IVSet.diff ident (l.toList ident) (r.toList ident)).map
        l.value_with_state_by_value ++ ivs) ++
      (IVSet.diff ident (r.toList ident) (l.toList ident)).map
        r.value_with_state_by_value).map fun x => ident x.just).Nodup := by
  rw [List.map_append, List.map_append]
  have hA : ((IVSet.diff ident (l.toList ident) (r.toList ident)).map
      l.value_with_state_by_value).map (fun x => ident x.just) =
      (IVSet.diff ident (l.toList ident) (r.toList ident)).map ident := by
    rw [List.map_map]
    exact List.map_congr_left fun v hv => by simp [Function.comp, Effect.vwsbv_just]
  have hC : ((IVSet.diff ident (r.toList ident) (l.toList ident)).map
      r.value_with_state_by_value).map (fun x => ident x.just) =
      (IVSet.diff ident (r.toList ident) (l.toList ident)).map ident := by
    rw [List.map_map]
    exact List.map_congr_left fun v hv => by simp [Function.comp, Effect.vwsbv_just]
  rw [hA, hC, Effect.interValues_keys hE]
  rw [List.nodup_append, List.nodup_append]
  have hmemA : ∀ j, j ∈ (IVSet.diff ident (l.toList ident) (r.toList ident)).map ident →
      IVSet.hasKey ident (l.toList ident) j = true ∧
        IVSet.hasKey ident (r.toList ident) j = false := by
    intro j hj
    rcases List.mem_map.mp hj with ⟨v, hv, rfl⟩
    rcases List.mem_filter.mp hv with ⟨hvl, hvr⟩
    refine ⟨IVSet.hasKey_of_mem hvl, ?_⟩
    simpa using hvr
  have hmemI : ∀ j, j ∈ (IVSet.inter ident (l.toList ident) (r.toList ident)).map ident →
      IVSet.hasKey ident (l.toList ident) j = true ∧
        IVSet.hasKey ident (r.toList ident) j = true := by
    intro j hj
    rcases List.mem_map.mp hj with ⟨v, hv, rfl⟩
    rcases List.mem_filter.mp hv with ⟨hvr, hvl⟩
    exact ⟨hvl, IVSet.hasKey_of_mem hvr⟩
  have hmemC : ∀ j, j ∈ (IVSet.diff ident (r.toList ident) (l.toList ident)).map ident →
      IVSet.hasKey ident (r.toList ident) j = true ∧
        IVSet.hasKey ident (l.toList ident) j = false := by
    intro j hj
    rcases List.mem_map.mp hj with ⟨v, hv, rfl⟩
    rcases List.mem_filter.mp hv with ⟨hvr, hvl⟩
    refine ⟨IVSet.hasKey_of_mem hvr, ?_⟩
    simpa using hvl
  refine ⟨⟨IVSet.nodupKeys_filter (Effect.nodupKeys_toList wl),
    IVSet.nodupKeys_filter (Effect.nodupKeys_toList wr), ?_⟩,
    IVSet.nodupKeys_filter (Effect.nodupKeys_toList wr), ?_⟩
  · intro j hjA hjI
    rcases hmemA j hjA with ⟨_, h2⟩
    rcases hmemI j hjI with ⟨_, h4⟩
    rw [h2] at h4
    exact absurd h4 (by simp)
  · intro j hjAI hjC
    rcases hmemC j hjC with ⟨_, h2⟩
    rcases List.mem_append.mp hjAI with hj | hj
    · rcases hmemA j hj with ⟨h1, _⟩
      rw [h1] at h2
      exact absurd h2 (by simp)
    · rcases hmemI j hj with ⟨h1, _⟩
      rw [h1] at h2
      exact absurd h2 (by simp)

theorem Effect.and_ok_destruct [DecidableEq ι] [DecidableEq V] {ident : V → ι}
    {l : Effect V J} {r : Effect V J'} {res : Effect V J'}
    (wl : l.Wf ident) (wr : r.Wf ident)
    (h : Effect.and ident l r = .ok res) :
    ∃ vs : List (StateTransition V),
      res = Effect.of_values_with_state ident r.just vs ∧
      (vs.map fun x => ident x.just).Nodup ∧
      ∀ i, stKeyFind ident vs i =
        andState (l.lookupState ident i) (r.lookupState ident i) := by
  rw [Effect.and_eq] at h
  cases hE : exceptList (Effect.interResults ident l r) with
  | error e =>
    simp only [hE] at h
    exact absurd h (by simp)
  | ok ivs =>
    simp only [hE] at h
    injection h with h
    have hlveq := IVSet.ofList_eq_self (Effect.nodupKeys_toList wl)
    have hrveq := IVSet.ofList_eq_self (Effect.nodupKeys_toList wr)
    rw [Effect.interResults, hlveq, hrveq] at hE
    rw [Effect.nextLeft, Effect.nextRight, hlveq, hrveq] at h
    exact ⟨_, h.symm, Effect.and_values_nodup wl wr hE,
      Effect.and_values_stKeyFind wl wr hE⟩

theorem Effect.and_ok_just [DecidableEq ι] [DecidableEq V] {ident : V → ι}
    {l : Effect V J} {r : Effect V J'} {res : Effect V J'}
    (h : Effect.and ident l r = .ok res) : res.just = r.just := by
  rw [Effect.and_eq] at h
  cases hE : exceptList (Effect.interResults ident l r) with
  | error e =>
    simp only [hE] at h
    exact absurd h (by simp)
  | ok ivs =>
    simp only [hE] at h
    injection h with h
    rw [← h]
    rfl

theorem Effect.and_ok_lookup [DecidableEq ι] [DecidableEq V] {ident : V → ι}
    {l : Effect V J} {r : Effect V J'} {res : Effect V J'}
    (wl : l.Wf ident) (wr : r.Wf ident)
    (h : Effect.and ident l r = .ok res) (i : ι) :
    res.lookupState ident i =
      andState (l.lookupState ident i) (r.lookupState ident i) := by
  rcases Effect.and_ok_destruct wl wr h with ⟨vs, hres, hnd, hpt⟩
  rw [hres, Effect.lookupState_of_values hnd, hpt i]

theorem Effect.and_ok_wf [DecidableEq ι] [DecidableEq V] {ident : V → ι}
    {l : Effect V J} {r : Effect V J'} {res : Effect V J'}
    (wl : l.Wf ident) (wr : r.Wf ident)
    (h : Effect.and ident l r = .ok res) : res.Wf ident := by
  rcases Effect.and_ok_destruct wl wr h with ⟨vs, hres, hnd, _⟩
  rw [hres]
  exact Effect.wf_of_values _ hnd

/-! ### Recovering bucket lookups from the cascade, and set equality -/

theorem IVSet.beq_of_keyLookup [DecidableEq ι] [DecidableEq V] {ident : V → ι}
    {s t : List V}
    (h : ∀ i, IVSet.keyLookup ident s i = IVSet.keyLookup ident t i) :
    IVSet.beq ident s t = true := by
  rw [IVSet.beq, Bool.and_eq_true]
  constructor
  · rw [List.all_eq_true]
    intro v hv
    rw [h (ident v)]
    exact beq_self_eq_true _
  · rw [List.all_eq_true]
    intro v hv
    rw [h (ident v)]
    exact beq_self_eq_true _

theorem Effect.keyLookup_new_eq [DecidableEq ι] {ident : V → ι} {e : Effect V J} (i : ι) :
    IVSet.keyLookup ident e.new_values i =
      match e.lookupState ident i with
      | some (.NewValue w) => some w
      | _ => none := by
  cases h : IVSet.keyLookup ident e.new_values i with
  | some w => rw [Effect.lookupState_new_iff.mpr h]
  | none =>
    cases h2 : e.lookupState ident i with
    | none => rfl
    | some s =>
      cases s with
      | NewValue w =>
        rw [Effect.lookupState_new_iff] at h2
        rw [h] at h2
        exact absurd h2 (by simp)
      | TranslatedValue w => rfl
      | MutatedValue w => rfl
      | DeadValue w => rfl
      | NoValue w => exact absurd h2 (Effect.lookupState_ne_no ident e i w)

theorem Effect.keyLookup_translated_eq [DecidableEq ι] {ident : V → ι} {e : Effect V J}
    (wf : e.Wf ident) (i : ι) :
    IVSet.keyLookup ident e.translated_values i =
      match e.lookupState ident i with
      | some (.TranslatedValue w) => some w
      | _ => none := by
  obtain ⟨n1, n2, n3, n4, d12, d13, d14, d23, d24, d34⟩ := wf
  cases h : IVSet.keyLookup ident e.translated_values i with
  | some w =>
    have hni : IVSet.keyLookup ident e.new_values i = none := by
      rw [IVSet.keyLookup_eq_none_iff]
      intro v hv hvi
      exact d12 v hv w (IVSet.keyLookup_mem h)
        (by rw [hvi, IVSet.keyLookup_ident h])
    rw [Effect.lookupState_translated_iff.mpr ⟨hni, h⟩]
  | none =>
    cases h2 : e.lookupState ident i with
    | none => rfl
    | some s =>
      cases s with
      | NewValue w => rfl
      | TranslatedValue w =>
        rcases Effect.lookupState_translated_iff.mp h2 with ⟨_, h3⟩
        rw [h] at h3
        exact absurd h3 (by simp)
      | MutatedValue w => rfl
      | DeadValue w => rfl
      | NoValue w => exact absurd h2 (Effect.lookupState_ne_no ident e i w)

theorem Effect.keyLookup_mutated_eq [DecidableEq ι] {ident : V → ι} {e : Effect V J}
    (wf : e.Wf ident) (i : ι) :
    IVSet.keyLookup ident e.mutated_values i =
      match e.lookupState ident i with
      | some (.MutatedValue w) => some w
      | _ => none := by
  obtain ⟨n1, n2, n3, n4, d12, d13, d14, d23, d24, d34⟩ := wf
  cases h : IVSet.keyLookup ident e.mutated_values i with
  | some w =>
    have hni : IVSet.keyLookup ident e.new_values i = none := by
      rw [IVSet.keyLookup_eq_none_iff]
      intro v hv hvi
      exact d13 v hv w (IVSet.keyLookup_mem h)
        (by rw [hvi, IVSet.keyLookup_ident h])
    have hti : IVSet.keyLookup ident e.translated_values i = none := by
      rw [IVSet.keyLookup_eq_none_iff]
      intro v hv hvi
      exact d23 v hv w (IVSet.keyLookup_mem h)
        (by rw [hvi, IVSet.keyLookup_ident h])
    rw [Effect.lookupState_mutated_iff.mpr ⟨hni, hti, h⟩]
  | none =>
    cases h2 : e.lookupState ident i with
    | none => rfl
    | some s =>
      cases s with
      | NewValue w => rfl
      | TranslatedValue w => rfl
      | MutatedValue w =>
        rcases Effect.lookupState_mutated_iff.mp h2 with ⟨_, _, h3⟩
        rw [h] at h3
        exact absurd h3 (by simp)
      | DeadValue w => rfl
      | NoValue w => exact absurd h2 (Effect.lookupState_ne_no ident e i w)

theorem Effect.keyLookup_dead_eq [DecidableEq ι] {ident : V → ι} {e : Effect V J}
    (wf : e.Wf ident) (i : ι) :
    IVSet.keyLookup ident e.dead_values i =
      match e.lookupState ident i with
      | some (.DeadValue w) => some w
      | _ => none := by
  obtain ⟨n1, n2, n3, n4, d12, d13, d14, d23, d24, d34⟩ := wf
  cases h : IVSet.keyLookup ident e.dead_values i with
  | some w =>
    have hni : IVSet.keyLookup ident e.new_values i = none := by
      rw [IVSet.keyLookup_eq_none_iff]
      intro v hv hvi
      exact d14 v hv w (IVSet.keyLookup_mem h)
        (by rw [hvi, IVSet.keyLookup_ident h])
    have hti : IVSet.keyLookup ident e.translated_values i = none := by
      rw [IVSet.keyLookup_eq_none_iff]
      intro v hv hvi
      exact d24 v hv w (IVSet.keyLookup_mem h)
        (by rw [hvi, IVSet.keyLookup_ident h])
    have hmi : IVSet.keyLookup ident e.mutated_values i = none := by
      rw [IVSet.keyLookup_eq_none_iff]
      intro v hv hvi
      exact d34 v hv w (IVSet.keyLookup_mem h)
        (by rw [hvi, IVSet.keyLookup_ident h])
    rw [Effect.lookupState_dead_iff.mpr ⟨hni, hti, hmi, h⟩]
  | none =>
    cases h2 : e.lookupState ident i with
    | none => rfl
    | some s =>
      cases s with
      | NewValue w => rfl
      | TranslatedValue w => rfl
      | MutatedValue w => rfl
      | DeadValue w =>
        rcases Effect.lookupState_dead_iff.mp h2 with ⟨_, _, _, h3⟩
        rw [h] at h3
        exact absurd h3 (by simp)
      | NoValue w => exact absurd h2 (Effect.lookupState_ne_no ident e i w)

theorem Effect.beq_of_lookupState [DecidableEq ι] [DecidableEq V] [DecidableEq J]
    {ident : V → ι} {e1 e2 : Effect V J}
    (w1 : e1.Wf ident) (w2 : e2.Wf ident)
    (hj : e1.just = e2.just)
    (h : ∀ i, e1.lookupState ident i = e2.lookupState ident i) :
    Effect.beq ident e1 e2 = true := by
  rw [Effect.beq, hj]
  simp only [decide_eq_true_eq]
  rw [Bool.and_eq_true, Bool.and_eq_true, Bool.and_eq_true, Bool.and_eq_true]
  refine ⟨⟨⟨⟨by simp, ?_⟩, ?_⟩, ?_⟩, ?_⟩
  · refine IVSet.beq_of_keyLookup fun i => ?_
    rw [Effect.keyLookup_new_eq i, Effect.keyLookup_new_eq i, h i]
  · refine IVSet.beq_of_keyLookup fun i => ?_
    rw [Effect.keyLookup_translated_eq w1 i, Effect.keyLookup_translated_eq w2 i, h i]
  · refine IVSet.beq_of_keyLookup fun i => ?_
    rw [Effect.keyLookup_mutated_eq w1 i, Effect.keyLookup_mutated_eq w2 i, h i]
  · refine IVSet.beq_of_keyLookup fun i => ?_
    rw [Effect.keyLookup_dead_eq w1 i, Effect.keyLookup_dead_eq w2 i, h i]

/-! ### Associativity of the per-identity combination -/

theorem StateTransition.combine_assoc3 [DecidableEq V] (x y z : StateTransition V)
    (hx : x.isNo = false) (hy : y.isNo = false) (hz : z.isNo = false)
    (hab : (x.combine y).isOk = true)
    (hbc : (y.combine z).isOk = true)
    (nEab : ∀ v, x.combine y ≠ .ok (.NoValue v))
    (nEbc : ∀ v, y.combine z ≠ .ok (.NoValue v)) :
    ∃ u v w, x.combine y = .ok u ∧ y.combine z = .ok v ∧
      u.combine z = .ok w ∧ x.combine v = .ok w := by
  cases x <;> cases y <;> cases z <;>
    first
    | (simp only [StateTransition.isNo] at hx; exact Bool.noConfusion hx)
    | (simp only [StateTransition.isNo] at hy; exact Bool.noConfusion hy)
    | (simp only [StateTransition.isNo] at hz; exact Bool.noConfusion hz)
    | (simp only [StateTransition.combine, Except.isOk, Except.toBool] at hab;
       exact Bool.noConfusion hab)
    | (simp only [StateTransition.combine, Except.isOk, Except.toBool] at hbc;
       exact Bool.noConfusion hbc)
    | exact absurd rfl (nEab _)
    | exact absurd rfl (nEbc _)
    | exact ⟨_, _, _, rfl, rfl, rfl, rfl⟩

theorem andState_none_left [DecidableEq V] (o : Option (StateTransition V)) :
    andState none o = o := by
  cases o <;> rfl

theorem andState_none_right [DecidableEq V] (o : Option (StateTransition V)) :
    andState o none = o := by
  cases o <;> rfl

theorem andState_some_of_ok [DecidableEq V] {x y u : StateTransition V}
    (hxy : x.combine y = .ok u) (hno : u.isNo = false) :
    andState (some x) (some y) = some u := by
  rw [andState, hxy]
  cases u with
  | NewValue w => rfl
  | TranslatedValue w => rfl
  | MutatedValue w => rfl
  | DeadValue w => rfl
  | NoValue w => simp [StateTransition.isNo] at hno

theorem andState_assoc [DecidableEq V] {sa sb sc : Option (StateTransition V)}
    (hnoA : ∀ x, sa = some x → x.isNo = false)
    (hnoB : ∀ x, sb = some x → x.isNo = false)
    (hnoC : ∀ x, sc = some x → x.isNo = false)
    (okab : ∀ x y, sa = some x → sb = some y → ∃ u, x.combine y = .ok u)
    (okbc : ∀ x y, sb = some x → sc = some y → ∃ u, x.combine y = .ok u)
    (nEab : ∀ x y v, sa = some x → sb = some y → x.combine y ≠ .ok (.NoValue v))
    (nEbc : ∀ x y v, sb = some x → sc = some y → x.combine y ≠ .ok (.NoValue v)) :
    andState (andState sa sb) sc = andState sa (andState sb sc) := by
  cases sa with
  | none => rw [andState_none_left, andState_none_left]
  | some x =>
    cases sb with
    | none => rw [andState_none_right, andState_none_left]
    | some y =>
      cases sc with
      | none => rw [andState_none_right, andState_none_right]
      | some z =>
        rcases StateTransition.combine_assoc3 x y z (hnoA x rfl) (hnoB y rfl) (hnoC z rfl)
            (by rcases okab x y rfl rfl with ⟨u, hu2⟩; rw [hu2]; rfl)
            (by rcases okbc y z rfl rfl with ⟨u, hu2⟩; rw [hu2]; rfl)
            (fun v0 => nEab x y v0 rfl rfl) (fun v0 => nEbc y z v0 rfl rfl)
          with ⟨u, v, w, hxy, hyz, h1, h2⟩
        have hu : u.isNo = false := by
          cases u with
          | NoValue w0 => exact absurd hxy (nEab x y w0 rfl rfl)
          | NewValue w0 => rfl
          | TranslatedValue w0 => rfl
          | MutatedValue w0 => rfl
          | DeadValue w0 => rfl
        have hv : v.isNo = false := by
          cases v with
          | NoValue w0 => exact absurd hyz (nEbc y z w0 rfl rfl)
          | NewValue w0 => rfl
          | TranslatedValue w0 => rfl
          | MutatedValue w0 => rfl
          | DeadValue w0 => rfl
        rw [andState_some_of_ok hxy hu, andState_some_of_ok hyz hv]
        rw [andState, h1, andState, h2]

theorem filterMap_filter_not_no {f : StateTransition V → Option V}
    (hfno : ∀ w, f (.NoValue w) = none) (vs : List (StateTransition V)) :
    (vs.filter fun x => ! x.isNo).filterMap f = vs.filterMap f := by
  induction vs with
  | nil => rfl
  | cons x rest ih =>
    rw [List.filter_cons]
    cases x with
    | NoValue w =>
      rw [show (! (StateTransition.NoValue w).isNo) = false from rfl]
      simp only [Bool.false_eq_true, if_false, List.filterMap_cons, hfno]
      exact ih
    | NewValue w =>
      rw [show (! (StateTransition.NewValue w).isNo) = true from rfl]
      simp only [if_true, List.filterMap_cons]
      rw [ih]
    | TranslatedValue w =>
      rw [show (! (StateTransition.TranslatedValue w).isNo) = true from rfl]
      simp only [if_true, List.filterMap_cons]
      rw [ih]
    | MutatedValue w =>
      rw [show (! (StateTransition.MutatedValue w).isNo) = true from rfl]
      simp only [if_true, List.filterMap_cons]
      rw [ih]
    | DeadValue w =>
      rw [show (! (StateTransition.DeadValue w).isNo) = true from rfl]
      simp only [if_true, List.filterMap_cons]
      rw [ih]

theorem StateTransition.newJust_eq_some_iff {x : StateTransition V} {w : V} :
    x.newJust = some w ↔ x = .NewValue w := by
  cases x <;> simp [StateTransition.newJust]

theorem StateTransition.translatedJust_eq_some_iff {x : StateTransition V} {w : V} :
    x.translatedJust = some w ↔ x = .TranslatedValue w := by
  cases x <;> simp [StateTransition.translatedJust]

theorem StateTransition.mutatedJust_eq_some_iff {x : StateTransition V} {w : V} :
    x.mutatedJust = some w ↔ x = .MutatedValue w := by
  cases x <;> simp [StateTransition.mutatedJust]

theorem StateTransition.deadJust_eq_some_iff {x : StateTransition V} {w : V} :
    x.deadJust = some w ↔ x = .DeadValue w := by
  cases x <;> simp [StateTransition.deadJust]

/-! ### The claims -/

/-- C1: the spec says `map(f)` transforms only the "just" value and leaves all
four tagged buckets untouched, but the source's constructor call omits
`translated_values`, which silently takes the dataclass default (the empty
set).  Evaluated at an effect whose translated bucket holds (1, 5) (with the
identity function as `f`): the translated bucket of the result is empty while
the other three buckets and the mapped "just" are as the spec describes. -/
theorem C1_map_drops_translated :
    (Effect.map (V := Nat × Nat) (J := Nat)
        { just := 7, new_values := [(2, 3)], translated_values := [(1, 5)],
          mutated_values := [(3, 4)], dead_values := [(4, 6)] } id).translated_values
      = [] ∧
    Effect.map (V := Nat × Nat) (J := Nat)
        { just := 7, new_values := [(2, 3)], translated_values := [(1, 5)],
          mutated_values := [(3, 4)], dead_values := [(4, 6)] } id =
      { just := 7, new_values := [(2, 3)], translated_values := [],
        mutated_values := [(3, 4)], dead_values := [(4, 6)] } := by
  decide

/-- C2: the seven listed (left, right) tag-constructor pairs are exactly those
whose combination raises `InvalidStateTransition` for every choice of wrapped
values, and the rule is directional (a pair is invalid exactly when listed,
independently of whether its swap is). -/
theorem C2_invalid_pairs_exact {V : Type} [DecidableEq V] [Inhabited V]
    (k1 k2 : TagKind) :
    (∀ v v2 : V,
      (TagKind.apply k1 v).combine (TagKind.apply k2 v2) = .error .mk) ↔
      (k1, k2) ∈ invalidPairs := by
  cases k1 <;> cases k2 <;> constructor <;>
    first
    | (intro h v v2; rfl)
    | (intro h; decide)
    | (intro h; simp [invalidPairs] at h; done)
    | (intro h
       have h2 := h default default
       simp [TagKind.apply, StateTransition.combine] at h2
       done)

/-- Witness for C2: the listed pair (New, Translated) raises at the concrete
values (0,0) and (0,1). -/
theorem C2_invalid_pairs_exact_witness :
    (TagKind.apply TagKind.N ((0, 0) : Nat × Nat)).combine
      (TagKind.apply TagKind.T (0, 1)) = .error .mk :=
  (C2_invalid_pairs_exact (V := Nat × Nat) TagKind.N TagKind.T).mpr
    (by decide) (0, 0) (0, 1)

/-- C4 counterexample: the claim quantifies over every tag, including the
neutral one; at t = existing with same-identity values (0,0) and (0,1), the
combination `existing((0,0)) & existing((0,1))` does not yield
`existing((0,0))` (the table's `E & E` entry requires equal values), so the
two-sided-identity law fails as stated. -/
theorem C4_counterexample :
    ¬ ((StateTransition.NoValue ((0, 0) : Nat × Nat)).combine
        (.NoValue (0, 1)) = .ok (.NoValue (0, 0))) := by
  decide

/-- C4 amended: the neutral existing/NoValue tag is a two-sided identity of
tag combination for the four non-neutral tags — `t(v) & existing(v2) = t(v)`
and `existing(v) & t(v2) = t(v2)` for t among New, Translated, Mutated,
Dead and all values v, v2 — and on the neutral tag itself the law holds
when the two wrapped values are equal. -/
theorem C4_neutral_identity {V : Type} [DecidableEq V] :
    (∀ v v2 : V,
      (StateTransition.NewValue v).combine (.NoValue v2) = .ok (.NewValue v) ∧
      (StateTransition.TranslatedValue v).combine (.NoValue v2) =
        .ok (.TranslatedValue v) ∧
      (StateTransition.MutatedValue v).combine (.NoValue v2) =
        .ok (.MutatedValue v) ∧
      (StateTransition.DeadValue v).combine (.NoValue v2) = .ok (.DeadValue v) ∧
      (StateTransition.NoValue v).combine (.NewValue v2) = .ok (.NewValue v2) ∧
      (StateTransition.NoValue v).combine (.TranslatedValue v2) =
        .ok (.TranslatedValue v2) ∧
      (StateTransition.NoValue v).combine (.MutatedValue v2) =
        .ok (.MutatedValue v2) ∧
      (StateTransition.NoValue v).combine (.DeadValue v2) = .ok (.DeadValue v2)) ∧
    (∀ v : V, (StateTransition.NoValue v).combine (.NoValue v) = .ok (.NoValue v)) := by
  refine ⟨fun v v2 => ⟨rfl, rfl, rfl, rfl, rfl, rfl, rfl, rfl⟩, fun v => ?_⟩
  rw [StateTransition.combine, if_pos rfl]

/-- C7: whenever `left & right` succeeds, the resulting effect's "just" value
is the right operand's "just" value, whatever the operands' buckets are. -/
theorem C7_just_right {V ι J J' : Type} [DecidableEq V] [DecidableEq ι]
    (ident : V → ι) (l : Effect V J) (r : Effect V J') (res : Effect V J')
    (h : Effect.and ident l r = .ok res) : res.just = r.just :=
  Effect.and_ok_just h

/-- Witness for C7 at concrete effects sharing identity 1 with a New/Dead
pairing. -/
theorem C7_just_right_witness :
    (({ just := 5 } : Effect (Nat × Nat) Nat)).just = 5 :=
  C7_just_right Prod.fst { just := 0, new_values := [(1, 10)] }
    { just := 5, dead_values := [(1, 20)] } { just := 5 } (by decide)

/-- C8: `and_then(f)` is exactly `self & f(self.just)` — the same resulting
effect, or the same failure. -/
theorem C8_and_then {V ι J J' : Type} [DecidableEq V] [DecidableEq ι]
    (ident : V → ι) (e : Effect V J) (f : J → Effect V J') :
    Effect.and_then ident e f = Effect.and ident e (f e.just) := rfl

/-- C3: combining with a Dead right-hand side nets as the table prescribes —
new & dead and translated & dead collapse to the neutral tag carrying the
right (last-known) value, mutated & dead and dead & dead yield dead with the
right value — and consequently, at the Effect level, an identity that is New
on the left and Dead on the right of a successful combination ends up in none
of the four buckets of the result. -/
theorem C3_dead_right {V ι : Type} [DecidableEq V] [DecidableEq ι] (ident : V → ι) :
    (∀ a b : V, ident a = ident b →
      (StateTransition.NewValue a).combine (.DeadValue b) = .ok (.NoValue b) ∧
      (StateTransition.TranslatedValue a).combine (.DeadValue b) = .ok (.NoValue b) ∧
      (StateTransition.MutatedValue a).combine (.DeadValue b) = .ok (.DeadValue b) ∧
      (StateTransition.DeadValue a).combine (.DeadValue b) = .ok (.DeadValue b)) ∧
    (∀ (J J' : Type) (l : Effect V J) (r : Effect V J') (res : Effect V J')
        (i : ι) (a b : V),
      l.Wf ident → r.Wf ident →
      l.lookupState ident i = some (.NewValue a) →
      r.lookupState ident i = some (.DeadValue b) →
      Effect.and ident l r = .ok res →
      IVSet.keyLookup ident res.new_values i = none ∧
      IVSet.keyLookup ident res.translated_values i = none ∧
      IVSet.keyLookup ident res.mutated_values i = none ∧
      IVSet.keyLookup ident res.dead_values i = none) := by
  refine ⟨fun a b h => ⟨rfl, rfl, rfl, rfl⟩, ?_⟩
  intro J J' l r res i a b wl wr hs ht h
  have hl := Effect.and_ok_lookup wl wr h i
  rw [hs, ht] at hl
  have hnone : res.lookupState ident i = none := by
    rw [hl]
    rfl
  exact Effect.lookupState_none_iff.mp hnone

/-- Witness for C3: new((1,10)) & dead((1,20)) at the tag level, and the
corresponding effect-level combination, leave identity 1 in no bucket. -/
theorem C3_dead_right_witness :
    (StateTransition.NewValue ((1, 10) : Nat × Nat)).combine (.DeadValue (1, 20)) =
      .ok (.NoValue (1, 20)) ∧
    IVSet.keyLookup Prod.fst
      (({ just := 5 } : Effect (Nat × Nat) Nat)).new_values 1 = none := by
  refine ⟨((C3_dead_right (V := Nat × Nat) Prod.fst).1 (1, 10) (1, 20) rfl).1, ?_⟩
  exact ((C3_dead_right (V := Nat × Nat) Prod.fst).2 Nat Nat
    { just := 0, new_values := [(1, 10)] } { just := 5, dead_values := [(1, 20)] }
    { just := 5 } 1 (1, 10) (1, 20) (by decide) (by decide) (by decide) (by decide)
    (by decide)).1

/-- C6: combination is all-or-nothing: `left & right` raises
`InvalidStateTransition` exactly when some shared identity carries an invalid
tag pairing, and otherwise returns a fully merged effect — a single `Except`
value, never a partial effect (the purely functional model leaves both
operands unchanged by construction). -/
theorem C6_all_or_nothing {V ι J J' : Type} [DecidableEq V] [DecidableEq ι]
    (ident : V → ι) (l : Effect V J) (r : Effect V J') :
    (Effect.and ident l r = .error .mk ↔
      ∃ i s t, l.lookupState ident i = some s ∧ r.lookupState ident i = some t ∧
        s.combine t = .error .mk) ∧
    ((¬ ∃ i s t, l.lookupState ident i = some s ∧ r.lookupState ident i = some t ∧
        s.combine t = .error .mk) →
      ∃ res, Effect.and ident l r = .ok res) := by
  refine ⟨Effect.and_error_iff ident l r, ?_⟩
  intro hn
  cases h : Effect.and ident l r with
  | error e =>
    rw [InvalidStateTransitionError.eq_mk e] at h
    exact absurd ((Effect.and_error_iff ident l r).mp h) hn
  | ok res => exact ⟨res, rfl⟩

/-- Witness for C6: a New/Translated pairing on shared identity 1 makes the
whole combination fail. -/
theorem C6_all_or_nothing_witness :
    Effect.and Prod.fst
      ({ just := 0, new_values := [(1, 10)] } : Effect (Nat × Nat) Nat)
      ({ just := 5, translated_values := [(1, 20)] } : Effect (Nat × Nat) Nat) =
      .error .mk :=
  (C6_all_or_nothing Prod.fst
      { just := 0, new_values := [(1, 10)] }
      { just := 5, translated_values := [(1, 20)] }).1.mpr
    ⟨1, .NewValue (1, 10), .TranslatedValue (1, 20), by decide, by decide, by decide⟩

/-- C9: `of_values_with_state` classification: `NoValue` inputs contribute to
no bucket (removing them leaves the constructed effect unchanged); every
bucket member is the wrapped value of an input carrying that bucket's tag;
and every tagged input's identity lands in the bucket matching its tag. -/
theorem C9_classification {V ι J : Type} [DecidableEq V] [DecidableEq ι]
    (ident : V → ι) (just : J) (values : List (StateTransition V)) :
    (Effect.of_values_with_state ident just values =
      Effect.of_values_with_state ident just (values.filter fun x => ! x.isNo)) ∧
    (∀ w, w ∈ (Effect.of_values_with_state ident just values).new_values →
      StateTransition.NewValue w ∈ values) ∧
    (∀ w, w ∈ (Effect.of_values_with_state ident just values).translated_values →
      StateTransition.TranslatedValue w ∈ values) ∧
    (∀ w, w ∈ (Effect.of_values_with_state ident just values).mutated_values →
      StateTransition.MutatedValue w ∈ values) ∧
    (∀ w, w ∈ (Effect.of_values_with_state ident just values).dead_values →
      StateTransition.DeadValue w ∈ values) ∧
    (∀ v, StateTransition.NewValue v ∈ values →
      ∃ w ∈ (Effect.of_values_with_state ident just values).new_values,
        ident w = ident v) ∧
    (∀ v, StateTransition.TranslatedValue v ∈ values →
      ∃ w ∈ (Effect.of_values_with_state ident just values).translated_values,
        ident w = ident v) ∧
    (∀ v, StateTransition.MutatedValue v ∈ values →
      ∃ w ∈ (Effect.of_values_with_state ident just values).mutated_values,
        ident w = ident v) ∧
    (∀ v, StateTransition.DeadValue v ∈ values →
      ∃ w ∈ (Effect.of_values_with_state ident just values).dead_values,
        ident w = ident v) := by
  refine ⟨?_, ?_, ?_, ?_, ?_, ?_, ?_, ?_, ?_⟩
  · simp only [Effect.of_values_with_state]
    rw [filterMap_filter_not_no (f := StateTransition.newJust) (fun w => rfl) values,
      filterMap_filter_not_no (f := StateTransition.translatedJust) (fun w => rfl) values,
      filterMap_filter_not_no (f := StateTransition.mutatedJust) (fun w => rfl) values,
      filterMap_filter_not_no (f := StateTransition.deadJust) (fun w => rfl) values]
  · intro w hw
    rcases List.mem_filterMap.mp (IVSet.mem_ofList hw) with ⟨x, hx, hfx⟩
    rw [StateTransition.newJust_eq_some_iff] at hfx
    exact hfx ▸ hx
  · intro w hw
    rcases List.mem_filterMap.mp (IVSet.mem_ofList hw) with ⟨x, hx, hfx⟩
    rw [StateTransition.translatedJust_eq_some_iff] at hfx
    exact hfx ▸ hx
  · intro w hw
    rcases List.mem_filterMap.mp (IVSet.mem_ofList hw) with ⟨x, hx, hfx⟩
    rw [StateTransition.mutatedJust_eq_some_iff] at hfx
    exact hfx ▸ hx
  · intro w hw
    rcases List.mem_filterMap.mp (IVSet.mem_ofList hw) with ⟨x, hx, hfx⟩
    rw [StateTransition.deadJust_eq_some_iff] at hfx
    exact hfx ▸ hx
  · intro v hv
    have hk : IVSet.hasKey ident
        (IVSet.ofList ident (values.filterMap StateTransition.newJust))
        (ident v) = true := by
      rw [IVSet.hasKey_ofList]
      exact IVSet.hasKey_of_mem (List.mem_filterMap.mpr ⟨_, hv, rfl⟩)
    exact IVSet.hasKey_iff.mp hk
  · intro v hv
    have hk : IVSet.hasKey ident
        (IVSet.ofList ident (values.filterMap StateTransition.translatedJust))
        (ident v) = true := by
      rw [IVSet.hasKey_ofList]
      exact IVSet.hasKey_of_mem (List.mem_filterMap.mpr ⟨_, hv, rfl⟩)
    exact IVSet.hasKey_iff.mp hk
  · intro v hv
    have hk : IVSet.hasKey ident
        (IVSet.ofList ident (values.filterMap StateTransition.mutatedJust))
        (ident v) = true := by
      rw [IVSet.hasKey_ofList]
      exact IVSet.hasKey_of_mem (List.mem_filterMap.mpr ⟨_, hv, rfl⟩)
    exact IVSet.hasKey_iff.mp hk
  · intro v hv
    have hk : IVSet.hasKey ident
        (IVSet.ofList ident (values.filterMap StateTransition.deadJust))
        (ident v) = true := by
      rw [IVSet.hasKey_ofList]
      exact IVSet.hasKey_of_mem (List.mem_filterMap.mpr ⟨_, hv, rfl⟩)
    exact IVSet.hasKey_iff.mp hk

/-- Witness for C9: the NewValue input (5,1) is stored in the new bucket and
traced back to the inputs. -/
theorem C9_classification_witness :
    StateTransition.NewValue ((5, 1) : Nat × Nat) ∈
      [StateTransition.NewValue ((5, 1) : Nat × Nat), .NoValue (7, 2)] :=
  (C9_classification Prod.fst (0 : Nat)
      [.NewValue ((5, 1) : Nat × Nat), .NoValue (7, 2)]).2.1
    (5, 1) (by decide)

/-- C10: iterating an effect yields the identity-keyed union of its four
buckets in order (new, translated, mutated, dead); under the invariant that
each identity lives in at most one bucket, the iteration is the concatenation
of the buckets, has no duplicates (every tracked value exactly once),
membership is exactly membership in some bucket, and the "just" value —
which the iteration never includes on its own — is yielded only if it also
occurs in a bucket. -/
theorem C10_iteration {V ι : Type} [DecidableEq V] [DecidableEq ι] (ident : V → ι)
    (e : Effect V V) (wf : e.Wf ident) :
    (e.toList ident =
      e.new_values ++ e.translated_values ++ e.mutated_values ++ e.dead_values) ∧
    (e.toList ident).Nodup ∧
    (∀ w, w ∈ e.toList ident ↔
      w ∈ e.new_values ∨ w ∈ e.translated_values ∨ w ∈ e.mutated_values ∨
        w ∈ e.dead_values) ∧
    (e.just ∉ e.new_values → e.just ∉ e.translated_values →
      e.just ∉ e.mutated_values → e.just ∉ e.dead_values →
      e.just ∉ e.toList ident) := by
  refine ⟨Effect.toList_eq_append wf, ?_, ?_, ?_⟩
  · exact List.Nodup.of_map ident (Effect.nodupKeys_toList wf)
  · intro w
    rw [Effect.toList_eq_append wf]
    simp [List.mem_append, or_assoc]
  · intro h1 h2 h3 h4 hc
    rcases Effect.mem_toList_elim hc with h | h | h | h
    exacts [h1 h, h2 h, h3 h, h4 h]

/-- Witness for C10 at a concrete well-formed effect with a new and a
translated value. -/
theorem C10_iteration_witness :
    (Effect.toList Prod.fst
      ({ just := (9, 9), new_values := [(1, 10)], translated_values := [(2, 20)] } :
        Effect (Nat × Nat) (Nat × Nat))).Nodup :=
  (C10_iteration Prod.fst
    { just := (9, 9), new_values := [(1, 10)], translated_values := [(2, 20)] }
    (by decide)).2.1

/-- C5 counterexample to associativity as claimed: with `a` creating identity
1 and `b`, `c` each deleting identity 1, every step of both groupings
succeeds (no `InvalidStateTransition` anywhere), yet `(a & b) & c` keeps
identity 1 in its dead bucket while `a & (b & c)` drops it entirely — the two
results are not equal. -/
theorem C5_counterexample :
    (Effect.and Prod.fst
        ({ just := 0, new_values := [(1, 10)] } : Effect (Nat × Nat) Nat)
        ({ just := 0, dead_values := [(1, 20)] } : Effect (Nat × Nat) Nat) =
      .ok { just := 0 }) ∧
    (Effect.and Prod.fst ({ just := 0 } : Effect (Nat × Nat) Nat)
        ({ just := 0, dead_values := [(1, 30)] } : Effect (Nat × Nat) Nat) =
      .ok { just := 0, dead_values := [(1, 30)] }) ∧
    (Effect.and Prod.fst
        ({ just := 0, dead_values := [(1, 20)] } : Effect (Nat × Nat) Nat)
        ({ just := 0, dead_values := [(1, 30)] } : Effect (Nat × Nat) Nat) =
      .ok { just := 0, dead_values := [(1, 30)] }) ∧
    (Effect.and Prod.fst
        ({ just := 0, new_values := [(1, 10)] } : Effect (Nat × Nat) Nat)
        ({ just := 0, dead_values := [(1, 30)] } : Effect (Nat × Nat) Nat) =
      .ok { just := 0 }) ∧
    Effect.beq Prod.fst
      ({ just := 0, dead_values := [(1, 30)] } : Effect (Nat × Nat) Nat)
      { just := 0 } = false ∧
    ({ just := 0, dead_values := [(1, 30)] } : Effect (Nat × Nat) Nat) ≠
      { just := 0 } := by
  decide

/-- C5 amended: combination of well-formed effects is associative on chains
where no step of either grouping raises `InvalidStateTransition` and,
additionally, neither inner combination (`a & b`, `b & c`) nets a shared
identity to the neutral tag (no New-then-Dead or Translated-then-Dead pairing
inside them): then `(a & b) & c` and `a & (b & c)` are equal as identity-keyed
records. -/
theorem C5_assoc {V ι J1 J2 J3 : Type} [DecidableEq V] [DecidableEq ι]
    [DecidableEq J3] (ident : V → ι)
    (a : Effect V J1) (b : Effect V J2) (c : Effect V J3)
    (ab : Effect V J2) (abc : Effect V J3) (bc : Effect V J3) (abc2 : Effect V J3)
    (wa : a.Wf ident) (wb : b.Wf ident) (wc : c.Wf ident)
    (h1 : Effect.and ident a b = .ok ab)
    (h2 : Effect.and ident ab c = .ok abc)
    (h3 : Effect.and ident b c = .ok bc)
    (h4 : Effect.and ident a bc = .ok abc2)
    (nab : NoNeutralStep ident a b)
    (nbc : NoNeutralStep ident b c) :
    Effect.beq ident abc abc2 = true := by
  have wab := Effect.and_ok_wf wa wb h1
  have wbc := Effect.and_ok_wf wb wc h3
  have wabc := Effect.and_ok_wf wab wc h2
  have wabc2 := Effect.and_ok_wf wa wbc h4
  have hjust : abc.just = abc2.just := by
    rw [Effect.and_ok_just h2, Effect.and_ok_just h4, Effect.and_ok_just h3]
  refine Effect.beq_of_lookupState wabc wabc2 hjust fun i => ?_
  rw [Effect.and_ok_lookup wab wc h2 i, Effect.and_ok_lookup wa wb h1 i,
    Effect.and_ok_lookup wa wbc h4 i, Effect.and_ok_lookup wb wc h3 i]
  refine andState_assoc ?_ ?_ ?_ ?_ ?_ ?_ ?_
  · exact fun x hx => Effect.lookupState_not_no hx
  · exact fun x hx => Effect.lookupState_not_no hx
  · exact fun x hx => Effect.lookupState_not_no hx
  · intro x y hx hy
    cases hc : x.combine y with
    | ok u => exact ⟨u, rfl⟩
    | error e =>
      have herr : Effect.and ident a b = .error .mk :=
        (Effect.and_error_iff ident a b).mpr
          ⟨i, x, y, hx, hy, by rw [hc, InvalidStateTransitionError.eq_mk e]⟩
      rw [h1] at herr
      exact absurd herr (by simp)
  · intro x y hx hy
    cases hc : x.combine y with
    | ok u => exact ⟨u, rfl⟩
    | error e =>
      have herr : Effect.and ident b c = .error .mk :=
        (Effect.and_error_iff ident b c).mpr
          ⟨i, x, y, hx, hy, by rw [hc, InvalidStateTransitionError.eq_mk e]⟩
      rw [h3] at herr
      exact absurd herr (by simp)
  · exact fun x y v hx hy => nab i x y v hx hy
  · exact fun x y v hx hy => nbc i x y v hx hy

/-- Witness for C5 amended, over a finite value type so every hypothesis is
decidable: `a` creates identity 1, `b` and `c` mutate it; both groupings
yield the same effect. -/
theorem C5_assoc_witness :
    Effect.beq (V := Fin 2 × Fin 2) Prod.fst
      ({ just := 2, new_values := [(1, 0)] } : Effect (Fin 2 × Fin 2) Nat)
      { just := 2, new_values := [(1, 0)] } = true :=
  C5_assoc (V := Fin 2 × Fin 2) (ι := Fin 2) Prod.fst
    { just := 0, new_values := [(1, 0)] }
    { just := 1, mutated_values := [(1, 1)] }
    { just := 2, mutated_values := [(1, 0)] }
    { just := 1, new_values := [(1, 1)] }
    { just := 2, new_values := [(1, 0)] }
    { just := 2, mutated_values := [(1, 0)] }
    { just := 2, new_values := [(1, 0)] }
    (by decide) (by decide) (by decide) (by decide) (by decide) (by decide)
    (by decide) (by decide) (by decide)
